import Mathlib

/-!
# Walk-The-Spline: cubic Hermite spline and mocap frame stepping

Shallow embedding of `spline.hpp` (`Spline3`) and of the time-integration part of
`character.hpp` (`Character::advance`, `Character::getCurrentCoordinateFrame`).

C++ `float` values are scalars of a linearly ordered field `K` (`ℚ` for evaluation, `ℝ`
for statements about derivatives). The spline and the coordinate frame are read in exact
arithmetic. `Character::advance`, whose result is a number of frames, takes the rounding of
`float` results as a parameter (`roundF32` for IEEE 754 binary32, the identity for exact
arithmetic) and converts to a 32-bit `int`.
-/

namespace WalkTheSpline

/-! ## glm::vec3 -/

/-- The `glm::vec3` value type over exact scalars. -/
structure Vec3 (K : Type) where
  x : K
  y : K
  z : K
deriving DecidableEq

namespace Vec3

variable {K : Type}

variable [Field K]

/-- Component-wise `vec3 + vec3`. -/
def add (a b : Vec3 K) : Vec3 K := ⟨a.x + b.x, a.y + b.y, a.z + b.z⟩

/-- Component-wise `vec3 - vec3`. -/
def sub (a b : Vec3 K) : Vec3 K := ⟨a.x - b.x, a.y - b.y, a.z - b.z⟩

/-- The product `float * vec3`. -/
def smul (k : K) (a : Vec3 K) : Vec3 K := ⟨k * a.x, k * a.y, k * a.z⟩

/-- The product `vec3 * float`. -/
def muls (a : Vec3 K) (k : K) : Vec3 K := ⟨a.x * k, a.y * k, a.z * k⟩

/-- The quotient `vec3 / float`. -/
def divs (a : Vec3 K) (k : K) : Vec3 K := ⟨a.x / k, a.y / k, a.z / k⟩

instance : Add (Vec3 K) := ⟨add⟩
instance : Sub (Vec3 K) := ⟨sub⟩
instance : HMul K (Vec3 K) (Vec3 K) := ⟨smul⟩
instance : HMul (Vec3 K) K (Vec3 K) := ⟨muls⟩
instance : HDiv (Vec3 K) K (Vec3 K) := ⟨divs⟩

end Vec3

/-! ## spline.hpp -/

/-- The class `SplinePoint3`: time, value and derivative of a control point. -/
structure SplinePoint3 (K : Type) where
  t : K
  p : Vec3 K
  dp : Vec3 K

/-- The class `Spline3`: the vector of control points. -/
structure Spline3 (K : Type) where
  points : List (SplinePoint3 K)

/-- What an unchecked C++ operation does wrong when the embedding makes it total. -/
inductive EvalError where
  | indexOutOfRange
  | divisionByZero
deriving DecidableEq

section Spline

variable {K : Type} [LinearOrderedField K]

/-- The call `std::max(a, b)`, which is `(a < b) ? b : a`. -/
def fmax (a b : K) : K := if a < b then b else a

/-- The call `std::min(a, b)`, which is `(b < a) ? b : a`. -/
def fmin (a b : K) : K := if b < a then b else a

namespace Spline3

/-- The method `minTime()`: `points.front().t`; `front()` of an empty vector is out of range. -/
def minTime (s : Spline3 K) : Except EvalError K :=
  match s.points.head? with
  | some q => .ok q.t
  | none => .error .indexOutOfRange

/-- The method `maxTime()`: `points.back().t`; `back()` of an empty vector is out of range. -/
def maxTime (s : Spline3 K) : Except EvalError K :=
  match s.points.getLast? with
  | some q => .ok q.t
  | none => .error .indexOutOfRange

/-- The scan `for (i = 0; i < (n - 1) && !(points[i].t <= t && t <= points[i+1].t); i++);`
of `findSegment`, started at index `i`. The test `i < n - 1` on C++ `int`s is
`i + 1 < n` on naturals; it guards both reads. -/
def findSegmentLoop (s : Spline3 K) (t : K) (i : Nat) : Nat :=
  if h : i + 1 < s.points.length then
    if ¬(s.points[i].t ≤ t ∧ t ≤ s.points[i + 1].t) then findSegmentLoop s t (i + 1) else i
  else i
termination_by s.points.length - i

/-- The method `findSegment(float &t)`: the returned index together with the new value of
`t`. -/
def findSegment (s : Spline3 K) (t : K) : Except EvalError (Nat × K) := do
  let lo ← s.minTime
  let hi ← s.maxTime
  let t := fmax lo (fmin hi t)
  pure (s.findSegmentLoop t 0, t)

/-- The unchecked read `points[i]`. -/
def pointAt (s : Spline3 K) (i : Nat) : Except EvalError (SplinePoint3 K) :=
  match s.points[i]? with
  | some q => .ok q
  | none => .error .indexOutOfRange

/-- The division `a / b` of floats, flagged when the divisor is zero. -/
def fdiv (a b : K) : Except EvalError K :=
  if b = 0 then .error .divisionByZero else .ok (a / b)

/-- The division `vec3 / float`, flagged when the divisor is zero. -/
def vdiv (a : Vec3 K) (b : K) : Except EvalError (Vec3 K) :=
  if b = 0 then .error .divisionByZero else .ok (a / b)

/-- The method `Spline3::getValue(float t)`. -/
def getValue (s : Spline3 K) (t : K) : Except EvalError (Vec3 K) := do
  let r ← s.findSegment t
  let seg : Nat := r.1
  let t : K := r.2
  let q1 ← s.pointAt (seg + 1)
  let q0 ← s.pointAt seg
  let tRange : K := q1.t - q0.t
  let t : K ← fdiv (t - q0.t) tRange
  let p0 : Vec3 K := q0.p
  let p0d : Vec3 K := q0.dp * tRange
  let p1 : Vec3 K := q1.p
  let p1d : Vec3 K := q1.dp * tRange
  let t3 : K := t * t * t
  let t2 : K := t * t
  pure ((2 * t3 - 3 * t2 + 1 : K) * p0 + (t3 - 2 * t2 + t : K) * p0d
    + (-2 * t3 + 3 * t2 : K) * p1 + (t3 - t2 : K) * p1d)

/-- The method `Spline3::getDerivative(float t)`. -/
def getDerivative (s : Spline3 K) (t : K) : Except EvalError (Vec3 K) := do
  let r ← s.findSegment t
  let seg : Nat := r.1
  let t : K := r.2
  let q1 ← s.pointAt (seg + 1)
  let q0 ← s.pointAt seg
  let tRange : K := q1.t - q0.t
  let t : K ← fdiv (t - q0.t) tRange
  let p0 : Vec3 K := q0.p
  let p0d : Vec3 K := q0.dp * tRange
  let p1 : Vec3 K := q1.p
  let p1d : Vec3 K := q1.dp * tRange
  let t2 : K := t * t
  let ret : Vec3 K := (3 : K) * ((2 : K) * p0 + p0d - (2 : K) * p1 + p1d) * t2
    + (2 : K) * ((-3 : K) * p0 - (2 : K) * p0d + (3 : K) * p1 - p1d) * t + p0d
  vdiv ret tRange

/-- The documented order of the control points: increasing `t`, ties allowed. -/
def Increasing (s : Spline3 K) : Prop := s.points.Pairwise (fun a b => a.t ≤ b.t)

/-- Control points whose `t` values are strictly increasing. -/
def StrictlyIncreasing (s : Spline3 K) : Prop := s.points.Pairwise (fun a b => a.t < b.t)

/-- The clamped time `max(minTime(), min(maxTime(), t))` for given bounds. -/
def clampTime (lo hi t : K) : K := max lo (min hi t)

/-- The value that the body of `getValue` computes on the segment from `q0` to `q1` at the
(already clamped) time `t`. -/
def segmentValue (q0 q1 : SplinePoint3 K) (t : K) : Vec3 K :=
  let tRange : K := q1.t - q0.t
  let t : K := (t - q0.t) / tRange
  let p0 : Vec3 K := q0.p
  let p0d : Vec3 K := q0.dp * tRange
  let p1 : Vec3 K := q1.p
  let p1d : Vec3 K := q1.dp * tRange
  let t3 : K := t * t * t
  let t2 : K := t * t
  (2 * t3 - 3 * t2 + 1 : K) * p0 + (t3 - 2 * t2 + t : K) * p0d
    + (-2 * t3 + 3 * t2 : K) * p1 + (t3 - t2 : K) * p1d

/-- The value that the body of `getDerivative` computes on the segment from `q0` to `q1`
at the (already clamped) time `t`. -/
def segmentDerivative (q0 q1 : SplinePoint3 K) (t : K) : Vec3 K :=
  let tRange : K := q1.t - q0.t
  let t : K := (t - q0.t) / tRange
  let p0 : Vec3 K := q0.p
  let p0d : Vec3 K := q0.dp * tRange
  let p1 : Vec3 K := q1.p
  let p1d : Vec3 K := q1.dp * tRange
  let t2 : K := t * t
  let ret : Vec3 K := (3 : K) * ((2 : K) * p0 + p0d - (2 : K) * p1 + p1d) * t2
    + (2 : K) * ((-3 : K) * p0 - (2 : K) * p0d + (3 : K) * p1 - p1d) * t + p0d
  ret / tRange

/-- One component of `segmentValue`: the cubic through `p0` at time `a` and `p1` at time
`b` with derivatives `d0` and `d1`, written as `getValue` computes it. -/
def hermite (a b p0 d0 p1 d1 x : K) : K :=
  let tRange : K := b - a
  let t : K := (x - a) / tRange
  let t3 : K := t * t * t
  let t2 : K := t * t
  (2 * t3 - 3 * t2 + 1) * p0 + (t3 - 2 * t2 + t) * (d0 * tRange) + (-2 * t3 + 3 * t2) * p1
    + (t3 - t2) * (d1 * tRange)

/-- One component of `segmentDerivative`, written as `getDerivative` computes it. -/
def hermiteDeriv (a b p0 d0 p1 d1 x : K) : K :=
  let tRange : K := b - a
  let t : K := (x - a) / tRange
  let t2 : K := t * t
  (3 * (2 * p0 + d0 * tRange - 2 * p1 + d1 * tRange) * t2
    + 2 * (-3 * p0 - 2 * (d0 * tRange) + 3 * p1 - d1 * tRange) * t + d0 * tRange) / tRange

end Spline3

/-- The control points of `sampleSpline` as real numbers. -/
def realSpline : Spline3 ℝ :=
  ⟨[⟨0, ⟨0, 0, 0⟩, ⟨0, 0, 0⟩⟩,
    ⟨1, ⟨1, 0, 0⟩, ⟨0, 0, 0⟩⟩,
    ⟨3, ⟨2, 5, 0⟩, ⟨1, 1, 1⟩⟩]⟩

/-- The two-point spline of the specification's example: `(0,(0,0,0),(0,0,0))` and
`(1,(1,0,0),(0,0,0))`. -/
def straightSpline : Spline3 ℚ :=
  ⟨[⟨0, ⟨0, 0, 0⟩, ⟨0, 0, 0⟩⟩, ⟨1, ⟨1, 0, 0⟩, ⟨0, 0, 0⟩⟩]⟩

/-- A three-point spline with unequal spans, used to instantiate the theorems. -/
def sampleSpline : Spline3 ℚ :=
  ⟨[⟨0, ⟨0, 0, 0⟩, ⟨0, 0, 0⟩⟩,
    ⟨1, ⟨1, 0, 0⟩, ⟨0, 0, 0⟩⟩,
    ⟨3, ⟨2, 5, 0⟩, ⟨1, 1, 1⟩⟩]⟩

end Spline

/-! ## character.hpp -/

section CharacterDefs

variable {K : Type} [LinearOrderedField K]

/-- The call `round(x)` of `<cmath>`: the nearest integral value, halves away from zero.
The result is an integral `float`; it is kept as an integer. -/
def cround [FloorRing K] (x : K) : Int :=
  if 0 ≤ x then ⌊x + 1 / 2⌋ else ⌈x - 1 / 2⌉

/-- The conversion of the integral `float` returned by `round` to `int`, as in
`int f0 = round(...)`. A value in the range of a 32-bit `int` converts to itself. Outside
that range (infinities included) C++ leaves the conversion undefined; the value taken is
the one that the x86-64 conversion instruction produces, `-2^31`. -/
def floatToInt (z : Int) : Int :=
  if -2147483648 ≤ z ∧ z ≤ 2147483647 then z else -2147483648

/-- An integer that a 32-bit `int` holds. -/
def InIntRange (z : Int) : Prop := -2147483648 ≤ z ∧ z ≤ 2147483647

/-- The data members of `Character` that `character.hpp` reads or writes. The skeleton and
the motion stream (`rootNodeBones`, `boneTable`, `anim`), whose classes are implemented
elsewhere, are kept as one component of an arbitrary type `B`. -/
structure Character (K : Type) (B : Type) where
  deg : Bool
  time : K
  position : Vec3 K
  orientation : Vec3 K
  animationFrame : Int
  basePosition : Vec3 K
  baseVelocity : Vec3 K
  bones : B

namespace Character

variable {B : Type}

/-- The loop `for (int f = f0; f < f1; f++) nextFrame();` of `advance`, entered with the
counter at `f`. The member function `nextFrame()` is declared in `character.hpp` and
implemented in `character_impl.hpp`; it is a parameter acting on the whole object. -/
def advanceLoop (nextFrame : Character K B → Character K B) (f1 : Int) (f : Int)
    (c : Character K B) : Character K B :=
  if f < f1 then advanceLoop nextFrame f1 (f + 1) (nextFrame c) else c
termination_by (f1 - f).toNat
decreasing_by omega

/-- The method `Character::advance(float dt)`. The function `fl` rounds the exact result
of each `float` operation (the product `fps*time`, the sum `time + dt`, the product
`fps*(time + dt)` and the sum of `time += dt`): `roundF32` for the C++ code, the identity
for exact arithmetic. The literal `120` is a `float` as it stands. -/
def advance [FloorRing K] (fl : K → K) (nextFrame : Character K B → Character K B)
    (c : Character K B) (dt : K) : Character K B :=
  let fps : K := 120
  let f0 : Int := floatToInt (cround (fl (fps * c.time)))
  let f1 : Int := floatToInt (cround (fl (fps * fl (c.time + dt))))
  let c := advanceLoop nextFrame f1 f0 c
  { c with time := fl (c.time + dt) }

/-- The assignment `time = t` on a `Character`. -/
def withTime (c : Character K B) (t : K) : Character K B := { c with time := t }

/-- The number of iterations of the loop of `advance` entered at elapsed time `time`:
the counter runs from `f0` up to, and not including, `f1`. -/
def frameSteps [FloorRing K] (fl : K → K) (time dt : K) : Nat :=
  (floatToInt (cround (fl ((120 : K) * fl (time + dt))))
    - floatToInt (cround (fl ((120 : K) * time)))).toNat

end Character

/-- Rounding of a rational to the nearest integer, ties to the even one: the rounding of
the significand in IEEE 754 arithmetic. -/
def roundHalfEven (y : ℚ) : Int :=
  let f : Int := ⌊y⌋
  if y - f < 1 / 2 then f
  else if 1 / 2 < y - f then f + 1
  else if f % 2 = 0 then f else f + 1

/-- The rounding of an exact result to a C++ `float` (IEEE 754 binary32, round to nearest,
ties to even): 24 significant bits at the binary exponent of `x`, and a spacing of `2^-149`
below `2^-126`. A result of magnitude `2^128` or more is an infinity in C++; here it
stays a number beyond the range of `int`, which `floatToInt` sends where it sends the
infinity. -/
def roundF32 (x : ℚ) : ℚ :=
  let e : Int := Int.log 2 |x|
  let q : ℚ := 2 ^ (max e (-126) - 23)
  roundHalfEven (x / q) * q

/-- A `Character` at time `0` in frame `0`, with base velocity `(1,0,0)` and no bones. -/
def restCharacter : Character ℚ Unit :=
  ⟨true, 0, ⟨0, 0, 0⟩, ⟨0, 0, 0⟩, 0, ⟨0, 0, 0⟩, ⟨1, 0, 0⟩, ()⟩

/-- A `nextFrame()` that only counts its own calls in `animationFrame`: it neither reads
nor writes `time`. -/
def countNextFrame (c : Character ℚ Unit) : Character ℚ Unit :=
  { c with animationFrame := c.animationFrame + 1 }

/-- A `glm::mat4`. GLM stores columns: the C++ element `m[c][r]` is the entry in row `r`
and column `c`, written `m r c` here, so that `*` is the product of `glm::mat4`. -/
abbrev Mat4 (K : Type) := Matrix (Fin 4) (Fin 4) K

/-- The functions of `<cmath>` that GLM calls and that have no exact counterpart in a
field: they are arbitrary functions here. -/
structure FloatMath (K : Type) where
  cos : K → K
  sin : K → K
  inversesqrt : K → K

/-- The library call `glm::radians(degrees)`: GLM multiplies by the constant
`0.01745329251994329576923690768489`. -/
def glmRadians (degrees : K) : K :=
  degrees * (1745329251994329576923690768489 / 100000000000000000000000000000000)

/-- The library call `glm::normalize(v)`, which is `v * inversesqrt(dot(v, v))`. -/
def glmNormalize (fm : FloatMath K) (v : Vec3 K) : Vec3 K :=
  v * fm.inversesqrt (v.x * v.x + v.y * v.y + v.z * v.z)

/-- The library call `glm::translate(m, v)`: GLM copies `m` and replaces the last column by
`m[0] * v[0] + m[1] * v[1] + m[2] * v[2] + m[3]`. -/
def glmTranslate (m : Mat4 K) (v : Vec3 K) : Mat4 K :=
  fun r c => if c = 3 then m r 0 * v.x + m r 1 * v.y + m r 2 * v.z + m r 3 else m r c

/-- The 3x3 block `Rotate` that `glm::rotate` builds from the angle and the normalised
axis; `rot c r` is the C++ element `Rotate[c][r]`. -/
def glmRotateBlock (fm : FloatMath K) (angle : K) (v : Vec3 K) : Fin 3 → Fin 3 → K :=
  let c : K := fm.cos angle
  let s : K := fm.sin angle
  let axis : Vec3 K := glmNormalize fm v
  let temp : Vec3 K := (1 - c : K) * axis
  fun i j =>
    match i, j with
    | 0, 0 => c + temp.x * axis.x
    | 0, 1 => temp.x * axis.y + s * axis.z
    | 0, 2 => temp.x * axis.z - s * axis.y
    | 1, 0 => temp.y * axis.x - s * axis.z
    | 1, 1 => c + temp.y * axis.y
    | 1, 2 => temp.y * axis.z + s * axis.x
    | 2, 0 => temp.z * axis.x + s * axis.y
    | 2, 1 => temp.z * axis.y - s * axis.x
    | 2, 2 => c + temp.z * axis.z

/-- The library call `glm::rotate(m, angle, v)`: column `i < 3` of the result is
`m[0] * Rotate[i][0] + m[1] * Rotate[i][1] + m[2] * Rotate[i][2]`, the last column is
`m[3]`. -/
def glmRotate (fm : FloatMath K) (m : Mat4 K) (angle : K) (v : Vec3 K) : Mat4 K :=
  let rot := glmRotateBlock fm angle v
  fun r c =>
    match c with
    | 0 => m r 0 * rot 0 0 + m r 1 * rot 0 1 + m r 2 * rot 0 2
    | 1 => m r 0 * rot 1 0 + m r 1 * rot 1 1 + m r 2 * rot 1 2
    | 2 => m r 0 * rot 2 0 + m r 1 * rot 2 1 + m r 2 * rot 2 2
    | 3 => m r 3

namespace Character

variable {B : Type}

/-- The method `Character::getCurrentCoordinateFrame()`. The declaration `mat4 frame;` runs
GLM's default constructor, which yields the identity matrix (GLM up to 0.9.8, and later
versions under `GLM_FORCE_CTOR_INIT`). -/
def getCurrentCoordinateFrame (fm : FloatMath K) (c : Character K B) : Mat4 K :=
  let frame : Mat4 K := 1
  let frame := glmTranslate frame c.position
  let frame := glmRotate fm frame (glmRadians c.orientation.z) ⟨0, 0, 1⟩
  let frame := glmRotate fm frame (glmRadians c.orientation.y) ⟨0, 1, 0⟩
  let frame := glmRotate fm frame (glmRadians c.orientation.x) ⟨1, 0, 0⟩
  frame

/-- The method `Character::getCurrentPosition()`. -/
def getCurrentPosition (c : Character K B) : Vec3 K := c.position

end Character

/-! The matrices named by the specification of `getCurrentCoordinateFrame`. -/

/-- Homogeneous translation by `v`. -/
def translateMatrix (v : Vec3 K) : Mat4 K :=
  !![1, 0, 0, v.x; 0, 1, 0, v.y; 0, 0, 1, v.z; 0, 0, 0, 1]

/-- Homogeneous rotation about the z axis by `degrees`. -/
def rotateZMatrix (fm : FloatMath K) (degrees : K) : Mat4 K :=
  let c := fm.cos (glmRadians degrees)
  let s := fm.sin (glmRadians degrees)
  !![c, -s, 0, 0; s, c, 0, 0; 0, 0, 1, 0; 0, 0, 0, 1]

/-- Homogeneous rotation about the y axis by `degrees`. -/
def rotateYMatrix (fm : FloatMath K) (degrees : K) : Mat4 K :=
  let c := fm.cos (glmRadians degrees)
  let s := fm.sin (glmRadians degrees)
  !![c, 0, s, 0; 0, 1, 0, 0; -s, 0, c, 0; 0, 0, 0, 1]

/-- Homogeneous rotation about the x axis by `degrees`. -/
def rotateXMatrix (fm : FloatMath K) (degrees : K) : Mat4 K :=
  let c := fm.cos (glmRadians degrees)
  let s := fm.sin (glmRadians degrees)
  !![1, 0, 0, 0; 0, c, -s, 0; 0, s, c, 0; 0, 0, 0, 1]

/-- Rational stand-ins for the `<cmath>` functions: the Taylor polynomials of degree two
of `cos` and `sin`, and one Newton step from `1` for `inversesqrt`. -/
def polyMath : FloatMath ℚ :=
  ⟨fun a => 1 - a * a / 2, fun a => a, fun x => (3 - x) / 2⟩

/-- A `Character` at position `(1,2,3)` with orientation `(10,20,30)` degrees. -/
def posedCharacter : Character ℚ Unit :=
  ⟨true, 0, ⟨1, 2, 3⟩, ⟨10, 20, 30⟩, 0, ⟨0, 0, 0⟩, ⟨0, 0, 0⟩, ()⟩

end CharacterDefs

/-! ## Properties of `glm::vec3` arithmetic -/

namespace Vec3

variable {K : Type}

theorem ext_iff3 (a b : Vec3 K) : a = b ↔ a.x = b.x ∧ a.y = b.y ∧ a.z = b.z := by
  cases a; cases b; simp

variable [Field K]

@[simp] theorem add_x (a b : Vec3 K) : (a + b).x = a.x + b.x := rfl
@[simp] theorem add_y (a b : Vec3 K) : (a + b).y = a.y + b.y := rfl
@[simp] theorem add_z (a b : Vec3 K) : (a + b).z = a.z + b.z := rfl
@[simp] theorem sub_x (a b : Vec3 K) : (a - b).x = a.x - b.x := rfl
@[simp] theorem sub_y (a b : Vec3 K) : (a - b).y = a.y - b.y := rfl
@[simp] theorem sub_z (a b : Vec3 K) : (a - b).z = a.z - b.z := rfl
@[simp] theorem smul_x (k : K) (a : Vec3 K) : (k * a).x = k * a.x := rfl
@[simp] theorem smul_y (k : K) (a : Vec3 K) : (k * a).y = k * a.y := rfl
@[simp] theorem smul_z (k : K) (a : Vec3 K) : (k * a).z = k * a.z := rfl
@[simp] theorem muls_x (a : Vec3 K) (k : K) : (a * k).x = a.x * k := rfl
@[simp] theorem muls_y (a : Vec3 K) (k : K) : (a * k).y = a.y * k := rfl
@[simp] theorem muls_z (a : Vec3 K) (k : K) : (a * k).z = a.z * k := rfl
@[simp] theorem divs_x (a : Vec3 K) (k : K) : (a / k).x = a.x / k := rfl
@[simp] theorem divs_y (a : Vec3 K) (k : K) : (a / k).y = a.y / k := rfl
@[simp] theorem divs_z (a : Vec3 K) (k : K) : (a / k).z = a.z / k := rfl

end Vec3

/-! ## Properties of `Spline3` -/

section SplineLemmas

set_option linter.unusedSectionVars false

variable {K : Type} [LinearOrderedField K]

theorem fmax_eq_max (a b : K) : fmax a b = max a b := by
  unfold fmax
  split_ifs with h
  · exact (max_eq_right h.le).symm
  · exact (max_eq_left (not_lt.mp h)).symm

theorem fmin_eq_min (a b : K) : fmin a b = min a b := by
  unfold fmin
  split_ifs with h
  · exact (min_eq_right h.le).symm
  · exact (min_eq_left (not_lt.mp h)).symm

namespace Spline3

theorem minTime_eq (s : Spline3 K) (h : 0 < s.points.length) :
    s.minTime = .ok s.points[0].t := by
  unfold minTime
  rw [List.head?_eq_getElem?, List.getElem?_eq_getElem h]

theorem maxTime_eq (s : Spline3 K) (h : 0 < s.points.length) :
    s.maxTime = .ok (s.points[s.points.length - 1]).t := by
  unfold maxTime
  rw [List.getLast?_eq_getElem?, List.getElem?_eq_getElem (by omega)]

theorem pointAt_eq (s : Spline3 K) (i : Nat) (h : i < s.points.length) :
    s.pointAt i = .ok s.points[i] := by
  unfold pointAt
  rw [List.getElem?_eq_getElem h]

/-- What `findSegment` returns on a spline with at least one control point. -/
theorem findSegment_eq (s : Spline3 K) (t : K) (h : 0 < s.points.length) :
    s.findSegment t =
      .ok (s.findSegmentLoop
            (clampTime s.points[0].t (s.points[s.points.length - 1]).t t) 0,
           clampTime s.points[0].t (s.points[s.points.length - 1]).t t) := by
  unfold findSegment clampTime
  rw [minTime_eq s h, maxTime_eq s h]
  simp only [bind, Except.bind, fmax_eq_max, fmin_eq_min]
  rfl

/-- The scan stops at the first bracketing index at or after its start. -/
theorem findSegmentLoop_eq (s : Spline3 K) (t : K) (i j : Nat) (hij : i ≤ j)
    (hj : j + 1 < s.points.length)
    (hb : s.points[j].t ≤ t ∧ t ≤ s.points[j + 1].t)
    (hmin : ∀ k (hk : k + 1 < s.points.length), i ≤ k → k < j →
      ¬(s.points[k].t ≤ t ∧ t ≤ s.points[k + 1].t)) :
    s.findSegmentLoop t i = j := by
  obtain ⟨d, hd⟩ : ∃ d, j = i + d := ⟨j - i, by omega⟩
  induction d generalizing i with
  | zero =>
    subst hd
    rw [findSegmentLoop, dif_pos hj, if_neg (not_not.mpr hb)]
  | succ d ih =>
    have hi : i + 1 < s.points.length := by omega
    rw [findSegmentLoop, dif_pos hi, if_pos (hmin i hi le_rfl (by omega))]
    exact ih (i + 1) (by omega) hb (fun k hk h1 h2 => hmin k hk (by omega) h2) (by omega)

theorem getValue_eq (s : Spline3 K) (t t1 : K) (j : Nat) (hj : j + 1 < s.points.length)
    (hf : s.findSegment t = .ok (j, t1)) (hne : s.points[j].t ≠ s.points[j + 1].t) :
    s.getValue t = .ok (segmentValue s.points[j] s.points[j + 1] t1) := by
  have hd : s.points[j + 1].t - s.points[j].t ≠ 0 := sub_ne_zero.mpr (Ne.symm hne)
  unfold getValue
  rw [hf]
  simp only [bind, Except.bind, pointAt_eq s (j + 1) hj, pointAt_eq s j (by omega), fdiv,
    if_neg hd]
  rfl

theorem getDerivative_eq (s : Spline3 K) (t t1 : K) (j : Nat) (hj : j + 1 < s.points.length)
    (hf : s.findSegment t = .ok (j, t1)) (hne : s.points[j].t ≠ s.points[j + 1].t) :
    s.getDerivative t = .ok (segmentDerivative s.points[j] s.points[j + 1] t1) := by
  have hd : s.points[j + 1].t - s.points[j].t ≠ 0 := sub_ne_zero.mpr (Ne.symm hne)
  unfold getDerivative
  rw [hf]
  simp only [bind, Except.bind, pointAt_eq s (j + 1) hj, pointAt_eq s j (by omega), fdiv,
    vdiv, if_neg hd]
  rfl

theorem strict_lt {s : Spline3 K} (hs : s.StrictlyIncreasing) {i j : Nat}
    (hj : j < s.points.length) (hij : i < j) : s.points[i].t < s.points[j].t :=
  (List.pairwise_iff_getElem.mp hs) i j (by omega) hj hij

theorem strict_le {s : Spline3 K} (hs : s.StrictlyIncreasing) {i j : Nat}
    (hj : j < s.points.length) (hij : i ≤ j) : s.points[i].t ≤ s.points[j].t := by
  rcases Nat.eq_or_lt_of_le hij with h | h
  · subst h; exact le_rfl
  · exact (strict_lt hs hj h).le

theorem strict_increasing {s : Spline3 K} (hs : s.StrictlyIncreasing) :
    s.Increasing :=
  List.Pairwise.imp (fun h => le_of_lt h) hs

theorem increasing_le {s : Spline3 K} (hs : s.Increasing) {i j : Nat}
    (hj : j < s.points.length) (hij : i ≤ j) : s.points[i].t ≤ s.points[j].t := by
  rcases Nat.eq_or_lt_of_le hij with h | h
  · subst h; exact le_rfl
  · exact (List.pairwise_iff_getElem.mp hs) i j (by omega) hj h

theorem clampTime_of_mem {lo hi t : K} (h1 : lo ≤ t) (h2 : t ≤ hi) : clampTime lo hi t = t := by
  unfold clampTime
  rw [min_eq_right h2, max_eq_right h1]

theorem clampTime_mem {lo hi : K} (h : lo ≤ hi) (t : K) :
    lo ≤ clampTime lo hi t ∧ clampTime lo hi t ≤ hi :=
  ⟨le_max_left _ _, max_le h (min_le_left _ _)⟩

/-- A time in the half-open span `(points[j].t, points[j+1].t]` is left as it is and
belongs to segment `j`. -/
theorem findSegment_interior (s : Spline3 K) (hs : s.StrictlyIncreasing) (j : Nat)
    (hj : j + 1 < s.points.length) (t : K) (h1 : s.points[j].t < t)
    (h2 : t ≤ s.points[j + 1].t) : s.findSegment t = .ok (j, t) := by
  have hlo : s.points[0].t ≤ t := le_trans (Spline3.strict_le hs (by omega) (Nat.zero_le j)) h1.le
  have hhi : t ≤ (s.points[s.points.length - 1]).t :=
    le_trans h2 (Spline3.strict_le hs (by omega) (by omega))
  rw [findSegment_eq s t (by omega), clampTime_of_mem hlo hhi]
  have hloop : s.findSegmentLoop t 0 = j := by
    refine findSegmentLoop_eq s t 0 j (Nat.zero_le j) hj ⟨h1.le, h2⟩ ?_
    intro k hk _ hkj hbr
    exact absurd (lt_of_le_of_lt (Spline3.strict_le hs (by omega) (by omega : k + 1 ≤ j)) h1)
      (not_lt.mpr hbr.2)
  rw [hloop]

/-- The first control time is left as it is and belongs to segment `0`. -/
theorem findSegment_first (s : Spline3 K) (hs : s.StrictlyIncreasing)
    (hn : 2 ≤ s.points.length) : s.findSegment s.points[0].t = .ok (0, s.points[0].t) := by
  have hhi : s.points[0].t ≤ (s.points[s.points.length - 1]).t :=
    Spline3.strict_le hs (by omega) (Nat.zero_le _)
  rw [findSegment_eq s _ (by omega), clampTime_of_mem le_rfl hhi]
  have hloop : s.findSegmentLoop s.points[0].t 0 = 0 :=
    findSegmentLoop_eq s _ 0 0 le_rfl (by omega)
      ⟨le_rfl, (Spline3.strict_lt hs (by omega) Nat.zero_lt_one).le⟩
      (fun k _ _ hk0 => absurd hk0 (Nat.not_lt_zero k))
  rw [hloop]

theorem segmentValue_left (q0 q1 : SplinePoint3 K) : segmentValue q0 q1 q0.t = q0.p := by
  rw [Vec3.ext_iff3]
  simp [segmentValue]

theorem segmentValue_right (q0 q1 : SplinePoint3 K) (h : q0.t ≠ q1.t) :
    segmentValue q0 q1 q1.t = q1.p := by
  have hd : q1.t - q0.t ≠ 0 := sub_ne_zero.mpr (Ne.symm h)
  rw [Vec3.ext_iff3]
  simp only [segmentValue, div_self hd, Vec3.add_x, Vec3.add_y, Vec3.add_z, Vec3.smul_x,
    Vec3.smul_y, Vec3.smul_z, Vec3.muls_x, Vec3.muls_y, Vec3.muls_z]
  refine ⟨?_, ?_, ?_⟩ <;> ring

theorem segmentDerivative_left (q0 q1 : SplinePoint3 K) (h : q0.t ≠ q1.t) :
    segmentDerivative q0 q1 q0.t = q0.dp := by
  have hd : q1.t - q0.t ≠ 0 := sub_ne_zero.mpr (Ne.symm h)
  rw [Vec3.ext_iff3]
  simp only [segmentDerivative, sub_self, zero_div, Vec3.add_x, Vec3.add_y, Vec3.add_z,
    Vec3.sub_x, Vec3.sub_y, Vec3.sub_z, Vec3.smul_x, Vec3.smul_y, Vec3.smul_z, Vec3.muls_x,
    Vec3.muls_y, Vec3.muls_z, Vec3.divs_x, Vec3.divs_y, Vec3.divs_z]
  refine ⟨?_, ?_, ?_⟩ <;> field_simp

theorem segmentDerivative_right (q0 q1 : SplinePoint3 K) (h : q0.t ≠ q1.t) :
    segmentDerivative q0 q1 q1.t = q1.dp := by
  have hd : q1.t - q0.t ≠ 0 := sub_ne_zero.mpr (Ne.symm h)
  rw [Vec3.ext_iff3]
  simp only [segmentDerivative, div_self hd, Vec3.add_x, Vec3.add_y, Vec3.add_z,
    Vec3.sub_x, Vec3.sub_y, Vec3.sub_z, Vec3.smul_x, Vec3.smul_y, Vec3.smul_z, Vec3.muls_x,
    Vec3.muls_y, Vec3.muls_z, Vec3.divs_x, Vec3.divs_y, Vec3.divs_z]
  refine ⟨?_, ?_, ?_⟩ <;> field_simp <;> ring

theorem getElem_t_congr (s : Spline3 K) {a b : Nat} (ha : a < s.points.length)
    (hb : b < s.points.length) (h : a = b) : s.points[a].t = s.points[b].t := by
  subst h; rfl

/-- Loop invariant of the scan: entered at `i` with `points[i].t ≤ t ≤ maxTime()`, it stops
at the first bracketing index, which exists. -/
theorem findSegmentLoop_spec (s : Spline3 K) (t : K) (d : Nat) :
    ∀ (i : Nat) (hi : i + 1 < s.points.length), s.points.length = i + 2 + d →
      s.points[i].t ≤ t → t ≤ (s.points[s.points.length - 1]).t →
      ∃ (j : Nat) (hj : j + 1 < s.points.length), i ≤ j ∧ s.findSegmentLoop t i = j ∧
        (s.points[j].t ≤ t ∧ t ≤ s.points[j + 1].t) ∧
        ∀ k (hk : k + 1 < s.points.length), i ≤ k → k < j →
          ¬(s.points[k].t ≤ t ∧ t ≤ s.points[k + 1].t) := by
  induction d with
  | zero =>
    intro i hi hlen h1 h2
    have hb : s.points[i].t ≤ t ∧ t ≤ s.points[i + 1].t :=
      ⟨h1, by rw [← getElem_t_congr s (by omega) hi (by omega : s.points.length - 1 = i + 1)]
              exact h2⟩
    refine ⟨i, hi, le_rfl, ?_, hb, fun k _ h3 h4 => absurd h4 (by omega)⟩
    rw [findSegmentLoop, dif_pos hi, if_neg (not_not.mpr hb)]
  | succ d ih =>
    intro i hi hlen h1 h2
    by_cases hb : s.points[i].t ≤ t ∧ t ≤ s.points[i + 1].t
    · refine ⟨i, hi, le_rfl, ?_, hb, fun k _ h3 h4 => absurd h4 (by omega)⟩
      rw [findSegmentLoop, dif_pos hi, if_neg (not_not.mpr hb)]
    · have h1n : s.points[i + 1].t ≤ t := by
        by_contra hc
        exact hb ⟨h1, (not_le.mp hc).le⟩
      obtain ⟨j, hj, hij, hloop, hbj, hmin⟩ := ih (i + 1) (by omega) (by omega) h1n h2
      refine ⟨j, hj, by omega, ?_, hbj, ?_⟩
      · rw [findSegmentLoop, dif_pos hi, if_pos hb]
        exact hloop
      · intro k hk h3 h4
        rcases Nat.eq_or_lt_of_le h3 with h5 | h5
        · subst h5; exact hb
        · exact hmin k hk h5 h4

/-- On at least two control points with `minTime() ≤ maxTime()`, `findSegment` returns the
clamped time and the first index that brackets it. -/
theorem findSegment_spec (s : Spline3 K) (hn : 2 ≤ s.points.length)
    (hle : s.points[0].t ≤ (s.points[s.points.length - 1]).t) (t : K) :
    ∃ (j : Nat) (hj : j + 1 < s.points.length),
      s.findSegment t =
        .ok (j, clampTime s.points[0].t (s.points[s.points.length - 1]).t t) ∧
      (s.points[j].t ≤ clampTime s.points[0].t (s.points[s.points.length - 1]).t t ∧
        clampTime s.points[0].t (s.points[s.points.length - 1]).t t ≤ s.points[j + 1].t) ∧
      ∀ k (hk : k + 1 < s.points.length), k < j →
        ¬(s.points[k].t ≤ clampTime s.points[0].t (s.points[s.points.length - 1]).t t ∧
          clampTime s.points[0].t (s.points[s.points.length - 1]).t t ≤ s.points[k + 1].t) := by
  obtain ⟨h1, h2⟩ := clampTime_mem hle t
  obtain ⟨j, hj, _, hloop, hb, hmin⟩ :=
    findSegmentLoop_spec s _ (s.points.length - 2) 0 (by omega) (by omega) h1 h2
  refine ⟨j, hj, ?_, hb, fun k hk hkj => hmin k hk (Nat.zero_le k) hkj⟩
  rw [findSegment_eq s t (by omega), hloop]

theorem getValue_congr (s : Spline3 K) {t t1 : K} (h : s.findSegment t = s.findSegment t1) :
    s.getValue t = s.getValue t1 := by
  unfold getValue
  rw [h]

theorem getDerivative_congr (s : Spline3 K) {t t1 : K}
    (h : s.findSegment t = s.findSegment t1) : s.getDerivative t = s.getDerivative t1 := by
  unfold getDerivative
  rw [h]

theorem clampTime_idem {lo hi : K} (h : lo ≤ hi) (t : K) :
    clampTime lo hi (clampTime lo hi t) = clampTime lo hi t :=
  clampTime_of_mem (clampTime_mem h t).1 (clampTime_mem h t).2

theorem findSegment_clamp (s : Spline3 K) (hn : 2 ≤ s.points.length)
    (hle : s.points[0].t ≤ (s.points[s.points.length - 1]).t) (t : K) :
    s.findSegment t =
      s.findSegment (clampTime s.points[0].t (s.points[s.points.length - 1]).t t) := by
  rw [findSegment_eq s t (by omega), findSegment_eq s (clampTime _ _ t) (by omega),
    clampTime_idem hle]

/-- At a control time `getValue` returns the stored value. -/
theorem getValue_control (s : Spline3 K) (hn : 2 ≤ s.points.length)
    (hs : s.StrictlyIncreasing) (i : Nat) (hi : i < s.points.length) :
    s.getValue s.points[i].t = .ok s.points[i].p := by
  cases i with
  | zero =>
    rw [getValue_eq s _ _ 0 (by omega) (findSegment_first s hs hn)
      (Spline3.strict_lt hs (by omega) Nat.zero_lt_one).ne, segmentValue_left]
  | succ k =>
    have hlt := Spline3.strict_lt hs hi (Nat.lt_succ_self k)
    rw [getValue_eq s _ _ k hi (findSegment_interior s hs k hi _ hlt le_rfl) hlt.ne,
      segmentValue_right _ _ hlt.ne]

/-- At a control time `getDerivative` returns the stored derivative. -/
theorem getDerivative_control (s : Spline3 K) (hn : 2 ≤ s.points.length)
    (hs : s.StrictlyIncreasing) (i : Nat) (hi : i < s.points.length) :
    s.getDerivative s.points[i].t = .ok s.points[i].dp := by
  cases i with
  | zero =>
    have hne := (Spline3.strict_lt hs (by omega : 1 < s.points.length) Nat.zero_lt_one).ne
    rw [getDerivative_eq s _ _ 0 (by omega) (findSegment_first s hs hn) hne,
      segmentDerivative_left _ _ hne]
  | succ k =>
    have hlt := Spline3.strict_lt hs hi (Nat.lt_succ_self k)
    rw [getDerivative_eq s _ _ k hi (findSegment_interior s hs k hi _ hlt le_rfl) hlt.ne,
      segmentDerivative_right _ _ hlt.ne]

/-- On the closed span of segment `j`, `getValue` is the cubic of segment `j`, also at the
left end, where the scan selects the segment before. -/
theorem getValue_on_segment (s : Spline3 K) (hs : s.StrictlyIncreasing) (j : Nat)
    (hj : j + 1 < s.points.length) (t : K) (h1 : s.points[j].t ≤ t)
    (h2 : t ≤ s.points[j + 1].t) :
    s.getValue t = .ok (segmentValue s.points[j] s.points[j + 1] t) := by
  have hlt := Spline3.strict_lt hs hj (Nat.lt_succ_self j)
  rcases eq_or_lt_of_le h1 with h | h
  · rw [← h, getValue_control s (by omega) hs j (by omega), segmentValue_left]
  · exact getValue_eq s _ _ j hj (findSegment_interior s hs j hj t h h2) hlt.ne

/-- Every evaluation on a valid spline finds a segment and returns. -/
theorem eval_total (s : Spline3 K) (hn : 2 ≤ s.points.length)
    (hs : s.StrictlyIncreasing) (t : K) :
    ∃ (j : Nat) (t1 : K) (hj : j + 1 < s.points.length),
      s.findSegment t = .ok (j, t1) ∧ s.points[j].t < s.points[j + 1].t ∧
      s.getValue t = .ok (segmentValue s.points[j] s.points[j + 1] t1) ∧
      s.getDerivative t = .ok (segmentDerivative s.points[j] s.points[j + 1] t1) := by
  have hle : s.points[0].t ≤ (s.points[s.points.length - 1]).t :=
    Spline3.strict_le hs (by omega) (Nat.zero_le _)
  obtain ⟨j, hj, hf, _, _⟩ := findSegment_spec s hn hle t
  have hlt := Spline3.strict_lt hs hj (Nat.lt_succ_self j)
  exact ⟨j, _, hj, hf, hlt, getValue_eq s _ _ j hj hf hlt.ne,
    getDerivative_eq s _ _ j hj hf hlt.ne⟩

/-- A time strictly between `minTime()` and `maxTime()` lies in a half-open span
`(points[j].t, points[j+1].t]`. -/
theorem exists_segment_of_interior (s : Spline3 K) (hn : 2 ≤ s.points.length)
    (hs : s.StrictlyIncreasing) (t : K) (h1 : s.points[0].t < t)
    (h2 : t < (s.points[s.points.length - 1]).t) :
    ∃ (j : Nat) (hj : j + 1 < s.points.length),
      s.points[j].t < t ∧ t ≤ s.points[j + 1].t := by
  have hle : s.points[0].t ≤ (s.points[s.points.length - 1]).t := (h1.trans h2).le
  obtain ⟨j, hj, _, hb, hmin⟩ := findSegment_spec s hn hle t
  simp only [clampTime_of_mem h1.le h2.le] at hb hmin
  refine ⟨j, hj, ?_, hb.2⟩
  rcases eq_or_lt_of_le hb.1 with h | h
  · exfalso
    cases j with
    | zero => exact absurd h1 (by rw [h]; exact lt_irrefl _)
    | succ k =>
      refine hmin k (by omega) (Nat.lt_succ_self k) ⟨?_, h.symm.le⟩
      rw [← h]
      exact (Spline3.strict_lt hs (by omega) (Nat.lt_succ_self k)).le
  · exact h

end Spline3

theorem sampleSpline_strict : sampleSpline.StrictlyIncreasing := by
  simp [Spline3.StrictlyIncreasing, sampleSpline]

theorem straightSpline_strict : straightSpline.StrictlyIncreasing := by
  simp [Spline3.StrictlyIncreasing, straightSpline]

end SplineLemmas

/-! ## The derivative of the spline over the reals -/

section DerivativeLemmas

namespace Spline3

/-- Each cubic of the spline is differentiable, with the derivative that `getDerivative`
computes on that segment. -/
theorem hermite_hasDerivAt (a b p0 d0 p1 d1 t : ℝ) (hab : a ≠ b) :
    HasDerivAt (fun x => hermite a b p0 d0 p1 d1 x) (hermiteDeriv a b p0 d0 p1 d1 t) t := by
  have hh : b - a ≠ 0 := sub_ne_zero.mpr (Ne.symm hab)
  have hu : HasDerivAt (fun x : ℝ => (x - a) / (b - a)) (1 / (b - a)) t :=
    ((hasDerivAt_id t).sub_const a).div_const (b - a)
  have hu2 := hu.mul hu
  have hu3 := hu2.mul hu
  have H := (((((hu3.const_mul 2).sub (hu2.const_mul 3)).add_const 1).mul_const p0).add
    (((hu3.sub (hu2.const_mul 2)).add hu).mul_const (d0 * (b - a)))).add
    (((hu3.const_mul (-2)).add (hu2.const_mul 3)).mul_const p1) |>.add
    ((hu3.sub hu2).mul_const (d1 * (b - a)))
  convert H using 1
  unfold hermiteDeriv
  field_simp
  ring

/-- One component `π` of the spline value is differentiable strictly inside the time range,
with derivative the same component of `getDerivative`. -/
theorem component_hasDerivAt (π : Vec3 ℝ → ℝ)
    (hv : ∀ (q0 q1 : SplinePoint3 ℝ) (x : ℝ), π (segmentValue q0 q1 x)
      = hermite q0.t q1.t (π q0.p) (π q0.dp) (π q1.p) (π q1.dp) x)
    (hd : ∀ (q0 q1 : SplinePoint3 ℝ) (x : ℝ), π (segmentDerivative q0 q1 x)
      = hermiteDeriv q0.t q1.t (π q0.p) (π q0.dp) (π q1.p) (π q1.dp) x)
    (s : Spline3 ℝ) (hn : 2 ≤ s.points.length) (hs : s.StrictlyIncreasing)
    (f : ℝ → Vec3 ℝ) (hf : ∀ x, s.getValue x = .ok (f x)) (t : ℝ)
    (h1 : s.points[0].t < t) (h2 : t < (s.points[s.points.length - 1]).t)
    (d : Vec3 ℝ) (hdt : s.getDerivative t = .ok d) :
    HasDerivAt (fun x => π (f x)) (π d) t := by
  obtain ⟨j, hj, hjt, htj⟩ := exists_segment_of_interior s hn hs t h1 h2
  have hlt := Spline3.strict_lt hs hj (Nat.lt_succ_self j)
  -- the value on the closed span of a segment
  have hval : ∀ (k : Nat) (hk : k + 1 < s.points.length) (x : ℝ),
      x ∈ Set.Icc s.points[k].t s.points[k + 1].t →
      π (f x) = hermite s.points[k].t s.points[k + 1].t (π s.points[k].p)
        (π s.points[k].dp) (π s.points[k + 1].p) (π s.points[k + 1].dp) x := by
    intro k hk x hx
    have h := getValue_on_segment s hs k hk x hx.1 hx.2
    rw [hf x] at h
    rw [Except.ok.inj h, hv]
  -- the derivative returned at `t`
  have hdj : π d = hermiteDeriv s.points[j].t s.points[j + 1].t (π s.points[j].p)
      (π s.points[j].dp) (π s.points[j + 1].p) (π s.points[j + 1].dp) t := by
    have h := getDerivative_eq s t t j hj (findSegment_interior s hs j hj t hjt htj) hlt.ne
    rw [hdt] at h
    rw [Except.ok.inj h, hd]
  have hleft : HasDerivWithinAt (fun x => π (f x)) (π d)
      (Set.Icc s.points[j].t s.points[j + 1].t) t := by
    rw [hdj]
    exact (hermite_hasDerivAt _ _ _ _ _ _ t hlt.ne).hasDerivWithinAt.congr
      (fun x hx => hval j hj x hx) (hval j hj t ⟨hjt.le, htj⟩)
  rcases eq_or_lt_of_le htj with heq | hlt2
  · -- `t` is the interior control time `points[j+1].t`
    have hj2 : j + 2 < s.points.length := by
      by_contra hcon
      have : s.points[j + 1].t = (s.points[s.points.length - 1]).t :=
        getElem_t_congr s hj (by omega) (by omega)
      rw [heq, this] at h2
      exact lt_irrefl _ h2
    have hlt3 := Spline3.strict_lt hs hj2 (Nat.lt_succ_self (j + 1))
    have hdr : π d = hermiteDeriv s.points[j + 1].t s.points[j + 1 + 1].t
        (π s.points[j + 1].p) (π s.points[j + 1].dp) (π s.points[j + 1 + 1].p)
        (π s.points[j + 1 + 1].dp) t := by
      have e3 := segmentDerivative_right s.points[j] s.points[j + 1] hlt.ne
      have e4 := segmentDerivative_left s.points[j + 1] s.points[j + 1 + 1] hlt3.ne
      rw [hdj, ← hd, ← hd, heq, e3, e4]
    have hright : HasDerivWithinAt (fun x => π (f x)) (π d)
        (Set.Icc s.points[j + 1].t s.points[j + 1 + 1].t) t := by
      rw [hdr]
      exact (hermite_hasDerivAt _ _ _ _ _ _ t hlt3.ne).hasDerivWithinAt.congr
        (fun x hx => hval (j + 1) hj2 x hx) (hval (j + 1) hj2 t ⟨heq.ge, heq ▸ hlt3.le⟩)
    have hun := hleft.union hright
    rw [Set.Icc_union_Icc_eq_Icc hlt.le hlt3.le] at hun
    exact hun.hasDerivAt (Icc_mem_nhds hjt (heq ▸ hlt3))
  · exact hleft.hasDerivAt (Icc_mem_nhds hjt hlt2)

end Spline3

end DerivativeLemmas

/-! ## The claims about `Spline3` -/

section SplineClaims

variable {K : Type} [LinearOrderedField K]

/-- C1 (interpolation property): on at least two control points with strictly increasing
times, `getValue(points[i].t)` returns `points[i].p` for every index `i`; for `i > 0` the
segment used is the one to the left, `i - 1`, and for `i = 0` it is segment `0`. -/
theorem getValue_interpolates (s : Spline3 K) (hn : 2 ≤ s.points.length)
    (hs : s.StrictlyIncreasing) (i : Nat) (hi : i < s.points.length) :
    s.getValue s.points[i].t = .ok s.points[i].p ∧
      s.findSegment s.points[i].t = .ok (i - 1, s.points[i].t) := by
  refine ⟨Spline3.getValue_control s hn hs i hi, ?_⟩
  cases i with
  | zero => exact Spline3.findSegment_first s hs hn
  | succ k =>
    exact Spline3.findSegment_interior s hs k hi _
      (Spline3.strict_lt hs hi (Nat.lt_succ_self k)) le_rfl

/-- Instance of C1 at the interior and at the last control point of `sampleSpline`. -/
theorem getValue_interpolates_witness :
    sampleSpline.getValue 1 = .ok ⟨1, 0, 0⟩ ∧ sampleSpline.getValue 3 = .ok ⟨2, 5, 0⟩ :=
  ⟨(getValue_interpolates sampleSpline (by decide) sampleSpline_strict 1 (by decide)).1,
   (getValue_interpolates sampleSpline (by decide) sampleSpline_strict 2 (by decide)).1⟩

/-- C2 (Hermite endpoint property): on at least two control points with strictly increasing
times, `getDerivative(points[i].t)` returns `points[i].dp` for every index `i`: the rescaling
by the segment span and the final division by it cancel at both ends of a segment. -/
theorem getDerivative_at_control_point (s : Spline3 K) (hn : 2 ≤ s.points.length)
    (hs : s.StrictlyIncreasing) (i : Nat) (hi : i < s.points.length) :
    s.getDerivative s.points[i].t = .ok s.points[i].dp :=
  Spline3.getDerivative_control s hn hs i hi

/-- Instance of C2 at the first and at the last control point of `sampleSpline`. -/
theorem getDerivative_at_control_point_witness :
    sampleSpline.getDerivative 0 = .ok ⟨0, 0, 0⟩ ∧
      sampleSpline.getDerivative 3 = .ok ⟨1, 1, 1⟩ :=
  ⟨getDerivative_at_control_point sampleSpline (by decide) sampleSpline_strict 0 (by decide),
   getDerivative_at_control_point sampleSpline (by decide) sampleSpline_strict 2 (by decide)⟩

/-- C4 (clamped extrapolation): on at least two control points with strictly increasing
times, `getValue(t)` and `getDerivative(t)` are the results at the clamped time
`max(minTime(), min(maxTime(), t))`; below `minTime()` they are the results at `minTime()`,
above `maxTime()` those at `maxTime()`, and clamping a clamped time changes nothing. -/
theorem clamped_extrapolation (s : Spline3 K) (hn : 2 ≤ s.points.length)
    (hs : s.StrictlyIncreasing) (t : K) :
    ∃ lo hi : K, s.minTime = .ok lo ∧ s.maxTime = .ok hi ∧
      s.getValue t = s.getValue (max lo (min hi t)) ∧
      s.getDerivative t = s.getDerivative (max lo (min hi t)) ∧
      (t < lo → s.getValue t = s.getValue lo ∧ s.getDerivative t = s.getDerivative lo) ∧
      (hi < t → s.getValue t = s.getValue hi ∧ s.getDerivative t = s.getDerivative hi) ∧
      max lo (min hi (max lo (min hi t))) = max lo (min hi t) := by
  have hle : s.points[0].t ≤ (s.points[s.points.length - 1]).t :=
    Spline3.strict_le hs (by omega) (Nat.zero_le _)
  have hc := Spline3.findSegment_clamp s hn hle t
  refine ⟨s.points[0].t, (s.points[s.points.length - 1]).t, Spline3.minTime_eq s (by omega),
    Spline3.maxTime_eq s (by omega), Spline3.getValue_congr s hc,
    Spline3.getDerivative_congr s hc, ?_, ?_, Spline3.clampTime_idem hle t⟩
  · intro hlt
    have e : Spline3.clampTime s.points[0].t (s.points[s.points.length - 1]).t t
        = s.points[0].t := by
      unfold Spline3.clampTime
      exact max_eq_left (le_trans (min_le_right _ _) hlt.le)
    rw [e] at hc
    exact ⟨Spline3.getValue_congr s hc, Spline3.getDerivative_congr s hc⟩
  · intro hlt
    have e : Spline3.clampTime s.points[0].t (s.points[s.points.length - 1]).t t
        = (s.points[s.points.length - 1]).t := by
      unfold Spline3.clampTime
      rw [min_eq_left hlt.le]
      exact max_eq_right hle
    rw [e] at hc
    exact ⟨Spline3.getValue_congr s hc, Spline3.getDerivative_congr s hc⟩

/-- Instance of C4 on `sampleSpline`: at the time `5`, beyond `maxTime() = 3`, the results
are those at the time `3`. -/
theorem clamped_extrapolation_witness :
    sampleSpline.getValue 5 = sampleSpline.getValue 3 ∧
      sampleSpline.getDerivative 5 = sampleSpline.getDerivative 3 := by
  obtain ⟨lo, hi, _, hhi, _, _, _, h, _⟩ :=
    clamped_extrapolation sampleSpline (by decide) sampleSpline_strict 5
  have e : hi = 3 := (Except.ok.inj hhi).symm
  subst e
  exact h (by norm_num)

/-- C5 (postcondition of `findSegment`): on `n ≥ 2` control points in increasing order of
`t`, `findSegment` replaces `t` by `max(minTime(), min(maxTime(), t))`, which lies in
`[minTime(), maxTime()]`, and returns the smallest index `i ≤ n - 2` with
`points[i].t ≤ t ≤ points[i+1].t`; when the new `t` is `maxTime()` and the times are
strictly increasing, that index is `n - 2`. -/
theorem findSegment_postcondition (s : Spline3 K) (hn : 2 ≤ s.points.length)
    (hs : s.Increasing) (t : K) :
    ∃ (lo hi : K) (i : Nat) (hi1 : i + 1 < s.points.length),
      s.minTime = .ok lo ∧ s.maxTime = .ok hi ∧
      s.findSegment t = .ok (i, max lo (min hi t)) ∧
      lo ≤ max lo (min hi t) ∧ max lo (min hi t) ≤ hi ∧
      i ≤ s.points.length - 2 ∧
      s.points[i].t ≤ max lo (min hi t) ∧ max lo (min hi t) ≤ s.points[i + 1].t ∧
      (∀ k (hk : k + 1 < s.points.length),
        s.points[k].t ≤ max lo (min hi t) → max lo (min hi t) ≤ s.points[k + 1].t →
        i ≤ k) ∧
      (s.StrictlyIncreasing → max lo (min hi t) = hi → i = s.points.length - 2) := by
  have hle : s.points[0].t ≤ (s.points[s.points.length - 1]).t :=
    Spline3.increasing_le hs (by omega) (Nat.zero_le _)
  obtain ⟨j, hj, hf, hb, hmin⟩ := Spline3.findSegment_spec s hn hle t
  obtain ⟨h1, h2⟩ := Spline3.clampTime_mem hle t
  refine ⟨s.points[0].t, (s.points[s.points.length - 1]).t, j, hj,
    Spline3.minTime_eq s (by omega), Spline3.maxTime_eq s (by omega), hf, h1, h2, by omega,
    hb.1, hb.2, ?_, ?_⟩
  · intro k hk hk1 hk2
    by_contra hlt
    exact hmin k hk (not_le.mp hlt) ⟨hk1, hk2⟩
  · intro hst heq
    by_contra hne
    have hlt : s.points[j + 1].t < (s.points[s.points.length - 1]).t :=
      Spline3.strict_lt hst (by omega) (by omega)
    have hb2 := hb.2
    unfold Spline3.clampTime at hb2
    rw [heq] at hb2
    exact absurd hlt (not_lt.mpr hb2)

/-- Instance of C5 on `sampleSpline`: the time `2` lies in segment `1`, and the time `7` is
replaced by `maxTime() = 3` and belongs to the last segment, `1`. -/
theorem findSegment_postcondition_witness :
    sampleSpline.findSegment 2 = .ok (1, 2) ∧ sampleSpline.findSegment 7 = .ok (1, 3) := by
  constructor
  · obtain ⟨lo, hi, i, hi1, hlo, hhi, hf, _, _, _, _, hb2, _, _⟩ :=
      findSegment_postcondition sampleSpline (by decide)
        (Spline3.strict_increasing sampleSpline_strict) 2
    have e1 : lo = 0 := (Except.ok.inj hlo).symm
    have e2 : hi = 3 := (Except.ok.inj hhi).symm
    subst e1 e2
    have hm : max (0 : ℚ) (min 3 2) = 2 := by norm_num
    rw [hm] at hf hb2
    have hi2 : i < 2 := by
      have h3 : i + 1 < 3 := hi1
      omega
    interval_cases i
    · norm_num [sampleSpline] at hb2
    · exact hf
  · obtain ⟨lo, hi, i, hi1, hlo, hhi, hf, _, _, _, _, _, _, hlast⟩ :=
      findSegment_postcondition sampleSpline (by decide)
        (Spline3.strict_increasing sampleSpline_strict) 7
    have e1 : lo = 0 := (Except.ok.inj hlo).symm
    have e2 : hi = 3 := (Except.ok.inj hhi).symm
    subst e1 e2
    have hm : max (0 : ℚ) (min 3 7) = 3 := by norm_num
    rw [hm] at hf
    rw [hlast sampleSpline_strict hm] at hf
    exact hf

/-- C8 (midpoint of a zero-slope segment): on at least two control points with strictly
increasing times, if both endpoint derivatives of segment `i` are zero then `getValue` at the
midpoint time `(points[i].t + points[i+1].t) / 2` returns `(points[i].p + points[i+1].p) / 2`. -/
theorem getValue_midpoint_zero_slope (s : Spline3 K) (hs : s.StrictlyIncreasing) (i : Nat)
    (hi : i + 1 < s.points.length) (h0 : s.points[i].dp = ⟨0, 0, 0⟩)
    (h1 : s.points[i + 1].dp = ⟨0, 0, 0⟩) :
    s.getValue ((s.points[i].t + s.points[i + 1].t) / 2)
      = .ok ((s.points[i].p + s.points[i + 1].p) / (2 : K)) := by
  have hlt := Spline3.strict_lt hs hi (Nat.lt_succ_self i)
  have hd : s.points[i + 1].t - s.points[i].t ≠ 0 := (sub_pos.mpr hlt).ne.symm
  have hf := Spline3.findSegment_interior s hs i hi
    ((s.points[i].t + s.points[i + 1].t) / 2) (by linarith) (by linarith)
  rw [Spline3.getValue_eq s _ _ i hi hf hlt.ne]
  have hu : ((s.points[i].t + s.points[i + 1].t) / 2 - s.points[i].t)
      / (s.points[i + 1].t - s.points[i].t) = 1 / 2 := by
    field_simp
    ring
  congr 1
  rw [Vec3.ext_iff3]
  simp only [Spline3.segmentValue, hu, h0, h1, Vec3.add_x, Vec3.add_y, Vec3.add_z,
    Vec3.smul_x, Vec3.smul_y, Vec3.smul_z, Vec3.muls_x, Vec3.muls_y, Vec3.muls_z,
    Vec3.divs_x, Vec3.divs_y, Vec3.divs_z]
  refine ⟨?_, ?_, ?_⟩ <;> ring

/-- The example of C8: on the spline with points `(0,(0,0,0),(0,0,0))` and
`(1,(1,0,0),(0,0,0))`, `getValue(0.5)` returns `(0.5,0,0)`. -/
theorem getValue_midpoint_zero_slope_witness :
    straightSpline.getValue (1 / 2) = .ok ⟨1 / 2, 0, 0⟩ := by
  have h := getValue_midpoint_zero_slope straightSpline straightSpline_strict 0 (by decide)
    rfl rfl
  have e1 : (straightSpline.points[0].t + straightSpline.points[0 + 1].t) / 2
      = (1 / 2 : ℚ) := by
    simp [straightSpline]
  have e2 : (straightSpline.points[0].p + straightSpline.points[0 + 1].p) / (2 : ℚ)
      = (⟨1 / 2, 0, 0⟩ : Vec3 ℚ) := by
    rw [Vec3.ext_iff3]
    simp [straightSpline]
  rw [e1, e2] at h
  exact h

/-- C10 (evaluation never fails): on at least two control points with strictly increasing
times, for every `t` the segment index `seg` found satisfies `seg + 1 ≤ n - 1`, the span
`points[seg+1].t - points[seg].t` is strictly positive, and both `getValue(t)` and
`getDerivative(t)` return a value: no read is out of range and no divisor is zero. -/
theorem evaluation_never_fails (s : Spline3 K) (hn : 2 ≤ s.points.length)
    (hs : s.StrictlyIncreasing) (t : K) :
    ∃ (seg : Nat) (t1 : K) (hseg : seg + 1 < s.points.length) (v d : Vec3 K),
      s.findSegment t = .ok (seg, t1) ∧ seg + 1 ≤ s.points.length - 1 ∧
      s.pointAt seg = .ok s.points[seg] ∧ s.pointAt (seg + 1) = .ok s.points[seg + 1] ∧
      0 < s.points[seg + 1].t - s.points[seg].t ∧
      s.getValue t = .ok v ∧ s.getDerivative t = .ok d := by
  obtain ⟨j, t1, hj, hf, hlt, hv, hd⟩ := Spline3.eval_total s hn hs t
  exact ⟨j, t1, hj, _, _, hf, by omega, Spline3.pointAt_eq s j (by omega),
    Spline3.pointAt_eq s (j + 1) hj, sub_pos.mpr hlt, hv, hd⟩

/-- Instance of C10 on `sampleSpline` at the time `-7`, below `minTime()`. -/
theorem evaluation_never_fails_witness :
    ∃ (seg : Nat) (t1 : ℚ) (hseg : seg + 1 < sampleSpline.points.length) (v d : Vec3 ℚ),
      sampleSpline.findSegment (-7) = .ok (seg, t1) ∧
      seg + 1 ≤ sampleSpline.points.length - 1 ∧
      sampleSpline.pointAt seg = .ok sampleSpline.points[seg] ∧
      sampleSpline.pointAt (seg + 1) = .ok sampleSpline.points[seg + 1] ∧
      0 < sampleSpline.points[seg + 1].t - sampleSpline.points[seg].t ∧
      sampleSpline.getValue (-7) = .ok v ∧ sampleSpline.getDerivative (-7) = .ok d :=
  evaluation_never_fails sampleSpline (by decide) sampleSpline_strict (-7)

/-- C3 (derivative consistency): on at least two control points with strictly increasing
times, at every `t` with `minTime() < t < maxTime()`, interior control times included, the
function `x ↦ getValue(x)` is defined on all reals and each of its components is
differentiable at `t`, with derivative the matching component of `getDerivative(t)`. -/
theorem getDerivative_is_derivative (s : Spline3 ℝ) (hn : 2 ≤ s.points.length)
    (hs : s.StrictlyIncreasing) (lo hi t : ℝ) (hlo : s.minTime = .ok lo)
    (hhi : s.maxTime = .ok hi) (h1 : lo < t) (h2 : t < hi) :
    ∃ (f : ℝ → Vec3 ℝ) (d : Vec3 ℝ), (∀ x, s.getValue x = .ok (f x)) ∧
      s.getDerivative t = .ok d ∧
      HasDerivAt (fun x => (f x).x) d.x t ∧
      HasDerivAt (fun x => (f x).y) d.y t ∧
      HasDerivAt (fun x => (f x).z) d.z t := by
  rw [Spline3.minTime_eq s (by omega)] at hlo
  rw [Spline3.maxTime_eq s (by omega)] at hhi
  have e1 : s.points[0].t = lo := Except.ok.inj hlo
  have e2 : (s.points[s.points.length - 1]).t = hi := Except.ok.inj hhi
  rw [← e1] at h1
  rw [← e2] at h2
  have hex : ∀ x, ∃ v, s.getValue x = .ok v := fun x => by
    obtain ⟨j, t1, hj, _, _, hv, _⟩ := Spline3.eval_total s hn hs x
    exact ⟨_, hv⟩
  choose f hf using hex
  obtain ⟨j, t1, hj, _, _, _, hd⟩ := Spline3.eval_total s hn hs t
  exact ⟨f, _, hf, hd,
    Spline3.component_hasDerivAt Vec3.x (fun _ _ _ => rfl) (fun _ _ _ => rfl) s hn hs f hf t
      h1 h2 _ hd,
    Spline3.component_hasDerivAt Vec3.y (fun _ _ _ => rfl) (fun _ _ _ => rfl) s hn hs f hf t
      h1 h2 _ hd,
    Spline3.component_hasDerivAt Vec3.z (fun _ _ _ => rfl) (fun _ _ _ => rfl) s hn hs f hf t
      h1 h2 _ hd⟩

/-- Instance of C3 on `realSpline` at the interior control time `1`. -/
theorem getDerivative_is_derivative_witness :
    ∃ (f : ℝ → Vec3 ℝ) (d : Vec3 ℝ), (∀ x, realSpline.getValue x = .ok (f x)) ∧
      realSpline.getDerivative 1 = .ok d ∧
      HasDerivAt (fun x => (f x).x) d.x 1 ∧
      HasDerivAt (fun x => (f x).y) d.y 1 ∧
      HasDerivAt (fun x => (f x).z) d.z 1 :=
  getDerivative_is_derivative realSpline (by simp [realSpline])
    (by simp [Spline3.StrictlyIncreasing, realSpline]) 0 3 1 rfl rfl (by norm_num)
    (by norm_num)

end SplineClaims

/-! ## Properties of `Character::advance` -/

section AdvanceLemmas

set_option linter.unusedSectionVars false

variable {K : Type} [LinearOrderedField K] {B : Type}

namespace Character

/-- The loop of `advance` applies `nextFrame` once for every counter value from `f` up to,
and not including, `f1`. -/
theorem advanceLoop_eq_iterate (nf : Character K B → Character K B) (f1 f : Int)
    (c : Character K B) : advanceLoop nf f1 f c = nf^[(f1 - f).toNat] c := by
  obtain ⟨n, hn⟩ : ∃ n, (f1 - f).toNat = n := ⟨_, rfl⟩
  induction n generalizing f c with
  | zero =>
    rw [advanceLoop, if_neg (by omega), hn]
    rfl
  | succ n ih =>
    have h1 : (f1 - (f + 1)).toNat = n := by omega
    rw [advanceLoop, if_pos (by omega), hn, ih (f + 1) (nf c) h1, h1,
      Function.iterate_succ_apply]

theorem iterate_time (nf : Character K B → Character K B)
    (hw : ∀ c, (nf c).time = c.time) (n : Nat) (c : Character K B) :
    (nf^[n] c).time = c.time := by
  induction n generalizing c with
  | zero => rfl
  | succ n ih => rw [Function.iterate_succ_apply, ih, hw]

end Character

theorem floatToInt_of_range {z : Int} (h : InIntRange z) : floatToInt z = z := by
  unfold floatToInt
  unfold InIntRange at h
  rw [if_pos h]

theorem floatToInt_le {z y : Int} (hzy : z ≤ y) (hy : InIntRange y) : floatToInt z ≤ y := by
  unfold floatToInt
  unfold InIntRange at hy
  split_ifs <;> omega

theorem floatToInt_range (z : Int) : InIntRange (floatToInt z) := by
  unfold floatToInt InIntRange
  split_ifs with h
  · exact h
  · omega

variable [FloorRing K]

/-- Rounding is monotone. -/
theorem cround_mono {x y : K} (h : x ≤ y) : cround x ≤ cround y := by
  unfold cround
  split_ifs with hx hy hy
  · exact Int.floor_mono (by linarith)
  · exact absurd (le_trans hx h) hy
  · have h1 : ⌈x - 1 / 2⌉ ≤ 0 := Int.ceil_le.mpr (by push_cast; linarith [not_le.mp hx])
    have h2 : (0 : Int) ≤ ⌊y + 1 / 2⌋ := Int.le_floor.mpr (by push_cast; linarith)
    exact le_trans h1 h2
  · exact Int.ceil_mono (by linarith)

/-- Rounding by `cround` returns a nearest integer, and on a tie the one away from zero. -/
theorem cround_nearest (x : K) :
    |(cround x : K) - x| ≤ 1 / 2 ∧
      (|(cround x : K) - x| = 1 / 2 → |x| < |(cround x : K)|) := by
  unfold cround
  split_ifs with hx
  · have h1 := Int.floor_le (x + 1 / 2)
    have h2 := Int.lt_floor_add_one (x + 1 / 2)
    refine ⟨abs_le.mpr ⟨by linarith, by linarith⟩, fun h => ?_⟩
    have h3 : ((⌊x + 1 / 2⌋ : Int) : K) - x = 1 / 2 := by
      rcases abs_eq (by norm_num : (0 : K) ≤ 1 / 2) |>.mp h with h4 | h4
      · exact h4
      · linarith
    rw [abs_of_nonneg hx, abs_of_nonneg (by linarith)]
    linarith
  · have hx0 : x < 0 := not_le.mp hx
    have h1 := Int.le_ceil (x - 1 / 2)
    have h2 := Int.ceil_lt_add_one (x - 1 / 2)
    refine ⟨abs_le.mpr ⟨by linarith, by linarith⟩, fun h => ?_⟩
    have h3 : ((⌈x - 1 / 2⌉ : Int) : K) - x = -(1 / 2) := by
      rcases abs_eq (by norm_num : (0 : K) ≤ 1 / 2) |>.mp h with h4 | h4
      · linarith
      · exact h4
    rw [abs_of_neg hx0, abs_of_neg (by linarith)]
    linarith

namespace Character

theorem advance_eq (fl : K → K) (nf : Character K B → Character K B) (c : Character K B)
    (dt : K) :
    advance fl nf c dt
      = withTime (nf^[frameSteps fl c.time dt] c)
          (fl ((nf^[frameSteps fl c.time dt] c).time + dt)) := by
  unfold advance frameSteps
  simp only [advanceLoop_eq_iterate]
  rfl

/-- When both rounded values fit in `int`, the loop runs `max(0, f1 - f0)` times. -/
theorem frameSteps_of_range (fl : K → K) (t dt : K)
    (h0 : InIntRange (cround (fl ((120 : K) * t))))
    (h1 : InIntRange (cround (fl ((120 : K) * fl (t + dt))))) :
    ((frameSteps fl t dt : Nat) : Int)
      = max 0 (cround (fl ((120 : K) * fl (t + dt))) - cround (fl ((120 : K) * t))) := by
  unfold frameSteps
  rw [floatToInt_of_range h0, floatToInt_of_range h1, Int.toNat_eq_max, max_comm]

/-- A step back in time runs no frame, when the frame of the current time fits in `int`. -/
theorem frameSteps_nonpos (fl : K → K) (hm : Monotone fl) (t dt : K) (ht : fl t = t)
    (hdt : dt ≤ 0) (h0 : InIntRange (cround (fl ((120 : K) * t)))) :
    frameSteps fl t dt = 0 := by
  unfold frameSteps
  have h1 : fl (t + dt) ≤ t := by
    have := hm (by linarith : t + dt ≤ t)
    rwa [ht] at this
  have h2 : cround (fl ((120 : K) * fl (t + dt))) ≤ cround (fl ((120 : K) * t)) :=
    cround_mono (hm (by linarith))
  have h3 := floatToInt_le h2 h0
  rw [floatToInt_of_range h0]
  omega

end Character

end AdvanceLemmas

/-! ## Properties of the rounding to `float` -/

section FloatLemmas

theorem roundHalfEven_bounds (y : ℚ) :
    ⌊y⌋ ≤ roundHalfEven y ∧ roundHalfEven y ≤ ⌊y⌋ + 1 := by
  unfold roundHalfEven
  simp only
  split_ifs <;> omega

theorem roundHalfEven_intCast (n : Int) : roundHalfEven (n : ℚ) = n := by
  unfold roundHalfEven
  simp

theorem roundHalfEven_mono {y z : ℚ} (h : y ≤ z) : roundHalfEven y ≤ roundHalfEven z := by
  rcases lt_or_eq_of_le (Int.floor_mono h) with hf | hf
  · have h1 := (roundHalfEven_bounds y).2
    have h2 := (roundHalfEven_bounds z).1
    omega
  · unfold roundHalfEven
    simp only
    rw [hf]
    split_ifs <;> first | omega | (exfalso; linarith)

theorem roundHalfEven_neg (y : ℚ) : roundHalfEven (-y) = -roundHalfEven y := by
  by_cases hy : ((⌊y⌋ : Int) : ℚ) = y
  · rw [← hy, ← Int.cast_neg, roundHalfEven_intCast, roundHalfEven_intCast]
  · have hlt : ((⌊y⌋ : Int) : ℚ) < y := lt_of_le_of_ne (Int.floor_le y) hy
    have hlt2 := Int.lt_floor_add_one y
    have h1 : ⌊-y⌋ = -⌊y⌋ - 1 := by
      rw [Int.floor_eq_iff]
      push_cast
      constructor <;> linarith
    unfold roundHalfEven
    simp only [h1]
    push_cast
    split_ifs <;> first | omega | (exfalso; linarith)

/-- The power of two that spaces the `float` values around `x`. -/
theorem roundF32_def (x : ℚ) :
    roundF32 x = roundHalfEven (x / 2 ^ (max (Int.log 2 |x|) (-126) - 23))
      * 2 ^ (max (Int.log 2 |x|) (-126) - 23) := rfl

/-- Rounding to `float` at a known binary exponent. -/
theorem roundF32_eq (x : ℚ) (e : Int) (h1 : (2 : ℚ) ^ e ≤ |x|)
    (h2 : |x| < (2 : ℚ) ^ (e + 1)) :
    roundF32 x
      = roundHalfEven (x / 2 ^ (max e (-126) - 23)) * 2 ^ (max e (-126) - 23) := by
  have hpos : (0 : ℚ) < |x| := lt_of_lt_of_le (zpow_pos (by norm_num) e) h1
  have hlog : Int.log 2 |x| = e := by
    apply le_antisymm
    · have h3 := (Int.lt_zpow_iff_log_lt (b := 2) (by norm_num) hpos (x := e + 1)).mp
        (by exact_mod_cast h2)
      omega
    · exact (Int.zpow_le_iff_le_log (b := 2) (by norm_num) hpos).mp (by exact_mod_cast h1)
  rw [roundF32_def, hlog]

theorem roundF32_neg (x : ℚ) : roundF32 (-x) = -roundF32 x := by
  rw [roundF32_def, roundF32_def, abs_neg, neg_div, roundHalfEven_neg]
  push_cast
  ring

theorem two_zpow_24 (E : Int) : (2 : ℚ) ^ (E + 1) = 16777216 * 2 ^ (E - 23) := by
  have h : E + 1 = 24 + (E - 23) := by ring
  rw [h, zpow_add₀ (by norm_num : (2 : ℚ) ≠ 0)]
  norm_num

theorem two_zpow_23 (E : Int) : (2 : ℚ) ^ E = 8388608 * 2 ^ (E - 23) := by
  have h : E = 23 + (E - 23) := by ring
  nth_rewrite 1 [h]
  rw [zpow_add₀ (by norm_num : (2 : ℚ) ≠ 0)]
  norm_num

theorem roundF32_nonneg {x : ℚ} (hx : 0 ≤ x) : 0 ≤ roundF32 x := by
  rw [roundF32_def]
  have hq : (0 : ℚ) < 2 ^ (max (Int.log 2 |x|) (-126) - 23) := zpow_pos (by norm_num) _
  have h1 : roundHalfEven ((0 : Int) : ℚ)
      ≤ roundHalfEven (x / 2 ^ (max (Int.log 2 |x|) (-126) - 23)) :=
    roundHalfEven_mono (by push_cast; exact div_nonneg hx hq.le)
  rw [roundHalfEven_intCast] at h1
  exact mul_nonneg (by exact_mod_cast h1) hq.le

/-- A number rounds to at most the power of two above its magnitude. -/
theorem roundF32_le_pow (x : ℚ) :
    roundF32 x ≤ 2 ^ (max (Int.log 2 |x|) (-126) + 1) := by
  have hq : (0 : ℚ) < 2 ^ (max (Int.log 2 |x|) (-126) - 23) := zpow_pos (by norm_num) _
  have hlt : |x| < (2 : ℚ) ^ (Int.log 2 |x| + 1) := by
    exact_mod_cast Int.lt_zpow_succ_log_self (b := 2) (by norm_num) |x|
  have hle : (2 : ℚ) ^ (Int.log 2 |x| + 1) ≤ 2 ^ (max (Int.log 2 |x|) (-126) + 1) :=
    zpow_le_zpow_right₀ (by norm_num) (by omega)
  have hx2 : x ≤ 16777216 * 2 ^ (max (Int.log 2 |x|) (-126) - 23) := by
    rw [← two_zpow_24]
    exact (lt_of_le_of_lt (le_abs_self x) (lt_of_lt_of_le hlt hle)).le
  have h1 : roundHalfEven (x / 2 ^ (max (Int.log 2 |x|) (-126) - 23))
      ≤ roundHalfEven ((16777216 : Int) : ℚ) :=
    roundHalfEven_mono (by push_cast; exact (div_le_iff₀ hq).mpr hx2)
  rw [roundHalfEven_intCast] at h1
  rw [roundF32_def, two_zpow_24]
  exact mul_le_mul_of_nonneg_right (by exact_mod_cast h1) hq.le

/-- A positive normal number rounds to at least the power of two below it. -/
theorem roundF32_ge_pow {x : ℚ} (hx : 0 < x) (he : -126 ≤ Int.log 2 |x|) :
    (2 : ℚ) ^ (Int.log 2 |x|) ≤ roundF32 x := by
  have hE : max (Int.log 2 |x|) (-126) = Int.log 2 |x| := max_eq_left he
  have hq : (0 : ℚ) < 2 ^ (Int.log 2 |x| - 23) := zpow_pos (by norm_num) _
  have hge : (2 : ℚ) ^ (Int.log 2 |x|) ≤ |x| := by
    exact_mod_cast Int.zpow_log_le_self (b := 2) (by norm_num) (abs_pos.mpr hx.ne.symm)
  have hx2 : 8388608 * 2 ^ (Int.log 2 |x| - 23) ≤ x := by
    rw [← two_zpow_23]
    exact hge.trans_eq (abs_of_pos hx)
  have h1 : roundHalfEven ((8388608 : Int) : ℚ)
      ≤ roundHalfEven (x / 2 ^ (Int.log 2 |x| - 23)) :=
    roundHalfEven_mono (by push_cast; exact (le_div_iff₀ hq).mpr hx2)
  rw [roundHalfEven_intCast] at h1
  rw [roundF32_def, hE]
  nth_rewrite 1 [two_zpow_23]
  exact mul_le_mul_of_nonneg_right (by exact_mod_cast h1) hq.le

theorem roundF32_mono_nonneg {x y : ℚ} (hx : 0 ≤ x) (h : x ≤ y) :
    roundF32 x ≤ roundF32 y := by
  rcases eq_or_lt_of_le hx with h0 | h0
  · have hz : roundF32 x = 0 := by
      rw [← h0, roundF32_def]
      simp [roundHalfEven]
    rw [hz]
    exact roundF32_nonneg (hx.trans h)
  · have hy : 0 < y := lt_of_lt_of_le h0 h
    have hlog : Int.log 2 |x| ≤ Int.log 2 |y| := by
      rw [abs_of_pos h0, abs_of_pos hy]
      exact Int.log_mono_right h0 h
    rcases eq_or_lt_of_le (max_le_max_right (-126) hlog) with hE | hE
    · rw [roundF32_def, roundF32_def, hE]
      have hq : (0 : ℚ) < 2 ^ (max (Int.log 2 |y|) (-126) - 23) := zpow_pos (by norm_num) _
      have h1 := roundHalfEven_mono (div_le_div_of_nonneg_right h hq.le)
      exact mul_le_mul_of_nonneg_right (by exact_mod_cast h1) hq.le
    · have he : -126 ≤ Int.log 2 |y| := by omega
      have hEy : max (Int.log 2 |y|) (-126) = Int.log 2 |y| := max_eq_left he
      calc roundF32 x ≤ 2 ^ (max (Int.log 2 |x|) (-126) + 1) := roundF32_le_pow x
        _ ≤ 2 ^ (Int.log 2 |y|) := zpow_le_zpow_right₀ (by norm_num) (by omega)
        _ ≤ roundF32 y := roundF32_ge_pow hy he

/-- Rounding to `float` is monotone. -/
theorem roundF32_monotone : Monotone roundF32 := by
  intro x y h
  rcases le_total 0 x with hx | hx
  · exact roundF32_mono_nonneg hx h
  · rcases le_total y 0 with hy | hy
    · have h1 := roundF32_mono_nonneg (neg_nonneg.mpr hy) (neg_le_neg h)
      rw [roundF32_neg, roundF32_neg] at h1
      linarith
    · have h1 := roundF32_nonneg (neg_nonneg.mpr hx)
      rw [roundF32_neg] at h1
      have h2 := roundF32_nonneg hy
      linarith

end FloatLemmas

/-! ## The claims about `Character::advance` -/

section AdvanceClaims

variable {K : Type} [LinearOrderedField K] [FloorRing K] {B : Type}

/-- C7 as amended (step count of `advance`): when `round(120*time)` and
`round(120*(time+dt))`, taken on the `float` values that the code computes, fit in a 32-bit
`int`, `advance(dt)` applies `nextFrame` exactly
`max(0, round(120*(time+dt)) - round(120*time))` times in succession, where `round` is the
nearest integer with halves away from zero, and then assigns the `float` sum `time + dt`
to `time`, changing nothing else; the count is zero when `dt ≤ 0` (the rounding of `float`
results being monotone and `time` a `float`), and the new time is the sum taken on the old
time when `nextFrame` leaves `time` alone. This holds for every rounding `fl` of `float`
results. -/
theorem advance_step_count (fl : K → K) (nf : Character K B → Character K B)
    (c : Character K B) (dt : K)
    (h0 : InIntRange (cround (fl ((120 : K) * c.time))))
    (h1 : InIntRange (cround (fl ((120 : K) * fl (c.time + dt))))) :
    Character.advance fl nf c dt
        = Character.withTime (nf^[Character.frameSteps fl c.time dt] c)
            (fl ((nf^[Character.frameSteps fl c.time dt] c).time + dt)) ∧
      ((Character.frameSteps fl c.time dt : Nat) : Int)
        = max 0 (cround (fl ((120 : K) * fl (c.time + dt)))
            - cround (fl ((120 : K) * c.time))) ∧
      (∀ x : K, |(cround x : K) - x| ≤ 1 / 2 ∧
        (|(cround x : K) - x| = 1 / 2 → |x| < |(cround x : K)|)) ∧
      (Monotone fl → fl c.time = c.time → dt ≤ 0 →
        Character.frameSteps fl c.time dt = 0 ∧
        Character.advance fl nf c dt = Character.withTime c (fl (c.time + dt))) ∧
      ((∀ c1 : Character K B, (nf c1).time = c1.time) →
        (Character.advance fl nf c dt).time = fl (c.time + dt)) := by
  refine ⟨Character.advance_eq fl nf c dt, Character.frameSteps_of_range fl c.time dt h0 h1,
    cround_nearest, ?_, ?_⟩
  · intro hm ht hdt
    have hz := Character.frameSteps_nonpos fl hm c.time dt ht hdt h0
    refine ⟨hz, ?_⟩
    rw [Character.advance_eq, hz]
    rfl
  · intro hw
    rw [Character.advance_eq]
    show fl ((nf^[Character.frameSteps fl c.time dt] c).time + dt) = fl (c.time + dt)
    rw [Character.iterate_time nf hw]

end AdvanceClaims

/-! ## Evaluations used by the instances below -/

section Evaluations

theorem roundF32_zero : roundF32 0 = 0 := by
  rw [roundF32_def]
  simp [roundHalfEven]

theorem roundF32_sample : roundF32 (9507089 / 134217728) = 9507089 / 134217728 := by
  rw [roundF32_eq _ (-4) (by norm_num [abs_of_pos]) (by norm_num [abs_of_pos])]
  norm_num [roundHalfEven]

/-- The `float` product `120 * 0.0708333328` is `8.5`, although the exact product is
smaller. -/
theorem roundF32_sample_frames : roundF32 (120 * (9507089 / 134217728)) = 17 / 2 := by
  rw [roundF32_eq _ 3 (by norm_num [abs_of_pos]) (by norm_num [abs_of_pos])]
  norm_num [roundHalfEven]

theorem roundF32_eighth : roundF32 (-(1 / 8)) = -(1 / 8) := by
  rw [roundF32_neg, roundF32_eq _ (-3) (by norm_num [abs_of_pos]) (by norm_num [abs_of_pos])]
  norm_num [roundHalfEven]

theorem roundF32_eighth_frames : roundF32 (120 * -(1 / 8)) = -15 := by
  have e : (120 : ℚ) * -(1 / 8) = -15 := by norm_num
  rw [e, roundF32_neg, roundF32_eq _ 3 (by norm_num [abs_of_pos]) (by norm_num [abs_of_pos])]
  norm_num [roundHalfEven]

theorem cround_eighth_frames : cround (-15 : ℚ) = -15 := by
  unfold cround
  rw [if_neg (by norm_num), Int.ceil_eq_iff]
  norm_num

theorem roundF32_large : roundF32 20000000 = 20000000 := by
  rw [roundF32_eq _ 24 (by norm_num [abs_of_pos]) (by norm_num [abs_of_pos])]
  norm_num [roundHalfEven]

theorem roundF32_large_frames : roundF32 (120 * 20000000) = 2400000000 := by
  rw [roundF32_eq _ 31 (by norm_num [abs_of_pos]) (by norm_num [abs_of_pos])]
  norm_num [roundHalfEven]

/-- Between two `float` values the rounding goes to the one with an even significand, and
below `2^-126` the spacing stays `2^-149`. -/
theorem roundF32_ties :
    roundF32 16777217 = 16777216 ∧ roundF32 16777219 = 16777220 ∧
      roundF32 (1 / 10) = 13421773 / 134217728 ∧
      roundF32 (3 * 2 ^ (-150 : Int)) = 2 ^ (-148 : Int) := by
  refine ⟨?_, ?_, ?_, ?_⟩
  · rw [roundF32_eq _ 24 (by norm_num [abs_of_pos]) (by norm_num [abs_of_pos])]
    norm_num [roundHalfEven]
  · rw [roundF32_eq _ 24 (by norm_num [abs_of_pos]) (by norm_num [abs_of_pos])]
    norm_num [roundHalfEven]
  · rw [roundF32_eq _ (-4) (by norm_num [abs_of_pos]) (by norm_num [abs_of_pos])]
    norm_num [roundHalfEven]
  · rw [roundF32_eq _ (-149) (by norm_num [abs_of_pos]) (by norm_num [abs_of_pos])]
    norm_num [roundHalfEven]

theorem countNextFrame_iterate (n : Nat) (c : Character ℚ Unit) :
    (countNextFrame^[n] c).animationFrame = c.animationFrame + n := by
  induction n generalizing c with
  | zero => simp
  | succ n ih =>
    rw [Function.iterate_succ_apply, ih]
    show c.animationFrame + 1 + (n : Int) = c.animationFrame + ((n + 1 : Nat) : Int)
    push_cast
    ring

theorem countNextFrame_time (n : Nat) (c : Character ℚ Unit) :
    (countNextFrame^[n] c).time = c.time :=
  Character.iterate_time countNextFrame (fun _ => rfl) n c

end Evaluations

section AdvanceInstances

/-- Instance of C7 as amended, in `float` arithmetic from time `0`: `advance(0.0708333328f)`
applies `nextFrame` nine times, the `float` product `120 * dt` being `8.5`, and
`advance(-0.125f)` applies it no time. -/
theorem advance_step_count_witness :
    Character.advance roundF32 countNextFrame restCharacter (9507089 / 134217728)
        = Character.withTime (countNextFrame^[9] restCharacter) (9507089 / 134217728) ∧
      Character.advance roundF32 countNextFrame restCharacter (-(1 / 8))
        = Character.withTime restCharacter (-(1 / 8)) := by
  have e0 : restCharacter.time = 0 := rfl
  have hz : InIntRange (cround (roundF32 ((120 : ℚ) * restCharacter.time))) := by
    rw [e0, mul_zero, roundF32_zero]
    norm_num [InIntRange, cround]
  constructor
  · have h1 : InIntRange (cround (roundF32 ((120 : ℚ)
        * roundF32 (restCharacter.time + 9507089 / 134217728)))) := by
      rw [e0, zero_add, roundF32_sample, roundF32_sample_frames]
      norm_num [InIntRange, cround]
    have h := (advance_step_count roundF32 countNextFrame restCharacter
      (9507089 / 134217728) hz h1).1
    have hn : Character.frameSteps roundF32 restCharacter.time (9507089 / 134217728) = 9 := by
      unfold Character.frameSteps
      rw [e0, zero_add, mul_zero, roundF32_zero, roundF32_sample, roundF32_sample_frames]
      norm_num [cround, floatToInt]
      rfl
    rw [hn, countNextFrame_time, e0, zero_add, roundF32_sample] at h
    exact h
  · have h1 : InIntRange (cround (roundF32 ((120 : ℚ)
        * roundF32 (restCharacter.time + -(1 / 8))))) := by
      rw [e0, zero_add, roundF32_eighth, roundF32_eighth_frames, cround_eighth_frames]
      norm_num [InIntRange]
    have h := ((advance_step_count roundF32 countNextFrame restCharacter
      (-(1 / 8)) hz h1).2.2.2.1 roundF32_monotone (by rw [e0, roundF32_zero])
      (by norm_num)).2
    rw [e0, zero_add, roundF32_eighth] at h
    exact h

/-- Counterexample to C7 as stated for every `dt`: from time `0`, `advance(2e7f)` applies
`nextFrame` no time, because `round(120 * 2e7) = 2400000000` does not fit in the `int`
variable `f1`, while the claimed count `max(0, round(120*(time+dt)) - round(120*time))` is
`2400000000`, in `float` and in exact arithmetic alike. For the same reason, from time
`2e7` the call `advance(-2e7f)` runs the loop 2147483648 times although `dt < 0`. -/
theorem advance_step_count_counterexample :
    Character.advance roundF32 countNextFrame restCharacter 20000000
        = Character.withTime restCharacter 20000000 ∧
      (Character.advance roundF32 countNextFrame restCharacter 20000000).animationFrame = 0 ∧
      max 0 (cround (roundF32 ((120 : ℚ) * roundF32 (restCharacter.time + 20000000)))
        - cround (roundF32 ((120 : ℚ) * restCharacter.time))) = 2400000000 ∧
      max 0 (cround ((120 : ℚ) * (restCharacter.time + 20000000))
        - cround ((120 : ℚ) * restCharacter.time)) = 2400000000 ∧
      (countNextFrame^[2400000000] restCharacter).animationFrame = 2400000000 ∧
      floatToInt 2400000000 = -2147483648 ∧
      Character.frameSteps roundF32 20000000 (-20000000) = 2147483648 := by
  have e0 : restCharacter.time = 0 := rfl
  have hn : Character.frameSteps roundF32 restCharacter.time 20000000 = 0 := by
    unfold Character.frameSteps
    rw [e0, zero_add, mul_zero, roundF32_zero, roundF32_large, roundF32_large_frames]
    norm_num [cround, floatToInt]
  have h : Character.advance roundF32 countNextFrame restCharacter 20000000
      = Character.withTime restCharacter 20000000 := by
    rw [Character.advance_eq, hn]
    show Character.withTime restCharacter (roundF32 (restCharacter.time + 20000000)) = _
    rw [e0, zero_add, roundF32_large]
  have hb : Character.frameSteps roundF32 20000000 (-20000000) = 2147483648 := by
    unfold Character.frameSteps
    rw [add_neg_cancel, roundF32_zero, mul_zero, roundF32_zero, roundF32_large_frames]
    norm_num [cround, floatToInt]
    rfl
  refine ⟨h, by rw [h]; rfl, ?_, ?_, ?_, by norm_num [floatToInt], hb⟩
  · rw [e0, zero_add, mul_zero, roundF32_zero, roundF32_large, roundF32_large_frames]
    norm_num [cround]
  · rw [e0]
    norm_num [cround]
  · rw [countNextFrame_iterate]
    rfl

end AdvanceInstances

/-! ## Properties of `Character::getCurrentCoordinateFrame` -/

section FrameLemmas

variable {K : Type} [LinearOrderedField K] {B : Type}

/-- The call `glm::translate(m, v)` multiplies `m` on the right by the translation by `v`. -/
theorem glmTranslate_eq_mul (m : Mat4 K) (v : Vec3 K) :
    glmTranslate m v = m * translateMatrix v := by
  ext r c
  fin_cases c <;>
    simp [glmTranslate, translateMatrix, Matrix.mul_apply, Fin.sum_univ_four,
      Matrix.vecHead, Matrix.vecTail]

/-- The call `glm::rotate(m, radians(d), vec3(0,0,1))` multiplies `m` on the right by the
rotation about the z axis. -/
theorem glmRotate_z (fm : FloatMath K) (h1 : fm.inversesqrt 1 = 1) (m : Mat4 K) (d : K) :
    glmRotate fm m (glmRadians d) ⟨0, 0, 1⟩ = m * rotateZMatrix fm d := by
  ext r c
  fin_cases c <;>
    simp [glmRotate, glmRotateBlock, glmNormalize, rotateZMatrix, Matrix.mul_apply,
      Fin.sum_univ_four, Matrix.vecHead, Matrix.vecTail, h1]

/-- The call `glm::rotate(m, radians(d), vec3(0,1,0))` multiplies `m` on the right by the
rotation about the y axis. -/
theorem glmRotate_y (fm : FloatMath K) (h1 : fm.inversesqrt 1 = 1) (m : Mat4 K) (d : K) :
    glmRotate fm m (glmRadians d) ⟨0, 1, 0⟩ = m * rotateYMatrix fm d := by
  ext r c
  fin_cases c <;>
    simp [glmRotate, glmRotateBlock, glmNormalize, rotateYMatrix, Matrix.mul_apply,
      Fin.sum_univ_four, Matrix.vecHead, Matrix.vecTail, h1]

/-- The call `glm::rotate(m, radians(d), vec3(1,0,0))` multiplies `m` on the right by the
rotation about the x axis. -/
theorem glmRotate_x (fm : FloatMath K) (h1 : fm.inversesqrt 1 = 1) (m : Mat4 K) (d : K) :
    glmRotate fm m (glmRadians d) ⟨1, 0, 0⟩ = m * rotateXMatrix fm d := by
  ext r c
  fin_cases c <;>
    simp [glmRotate, glmRotateBlock, glmNormalize, rotateXMatrix, Matrix.mul_apply,
      Fin.sum_univ_four, Matrix.vecHead, Matrix.vecTail, h1]

theorem rotateXMatrix_origin (fm : FloatMath K) (d : K) :
    Matrix.mulVec (rotateXMatrix fm d) ![0, 0, 0, 1] = ![0, 0, 0, 1] := by
  ext i
  fin_cases i <;> simp [rotateXMatrix, Matrix.mulVec, Matrix.dotProduct, Fin.sum_univ_four]

theorem rotateYMatrix_origin (fm : FloatMath K) (d : K) :
    Matrix.mulVec (rotateYMatrix fm d) ![0, 0, 0, 1] = ![0, 0, 0, 1] := by
  ext i
  fin_cases i <;> simp [rotateYMatrix, Matrix.mulVec, Matrix.dotProduct, Fin.sum_univ_four]

theorem rotateZMatrix_origin (fm : FloatMath K) (d : K) :
    Matrix.mulVec (rotateZMatrix fm d) ![0, 0, 0, 1] = ![0, 0, 0, 1] := by
  ext i
  fin_cases i <;> simp [rotateZMatrix, Matrix.mulVec, Matrix.dotProduct, Fin.sum_univ_four]

theorem translateMatrix_origin (v : Vec3 K) :
    Matrix.mulVec (translateMatrix v) ![0, 0, 0, 1] = ![v.x, v.y, v.z, 1] := by
  ext i
  fin_cases i <;> simp [translateMatrix, Matrix.mulVec, Matrix.dotProduct, Fin.sum_univ_four]

end FrameLemmas

/-! ## The claim about `Character::getCurrentCoordinateFrame` -/

section FrameClaims

variable {K : Type} [LinearOrderedField K] {B : Type}

/-- C9 (composition order of `getCurrentCoordinateFrame`): the returned matrix is the
product translate(`position`) * rotateZ(`orientation.z`) * rotateY(`orientation.y`) *
rotateX(`orientation.x`) in that order, each GLM call multiplying the matrix built so far on
the right, starting from the identity; it maps the origin to `getCurrentPosition()`. The
only fact used about the floating-point library is `inversesqrt(1) = 1`, which makes the
normalised coordinate axes the axes themselves. -/
theorem getCurrentCoordinateFrame_order (fm : FloatMath K) (h1 : fm.inversesqrt 1 = 1)
    (c : Character K B) :
    Character.getCurrentCoordinateFrame fm c
        = translateMatrix c.position * rotateZMatrix fm c.orientation.z
          * rotateYMatrix fm c.orientation.y * rotateXMatrix fm c.orientation.x ∧
      Character.getCurrentCoordinateFrame fm c
        = glmRotate fm (glmRotate fm (glmRotate fm (glmTranslate 1 c.position)
            (glmRadians c.orientation.z) ⟨0, 0, 1⟩) (glmRadians c.orientation.y) ⟨0, 1, 0⟩)
            (glmRadians c.orientation.x) ⟨1, 0, 0⟩ ∧
      Matrix.mulVec (Character.getCurrentCoordinateFrame fm c) ![0, 0, 0, 1]
        = ![(Character.getCurrentPosition c).x, (Character.getCurrentPosition c).y,
            (Character.getCurrentPosition c).z, 1] := by
  have e : Character.getCurrentCoordinateFrame fm c
      = translateMatrix c.position * rotateZMatrix fm c.orientation.z
        * rotateYMatrix fm c.orientation.y * rotateXMatrix fm c.orientation.x := by
    unfold Character.getCurrentCoordinateFrame
    simp only [glmRotate_x fm h1, glmRotate_y fm h1, glmRotate_z fm h1, glmTranslate_eq_mul,
      one_mul]
  refine ⟨e, rfl, ?_⟩
  rw [e, ← Matrix.mulVec_mulVec, ← Matrix.mulVec_mulVec, ← Matrix.mulVec_mulVec,
    rotateXMatrix_origin, rotateYMatrix_origin, rotateZMatrix_origin, translateMatrix_origin]
  rfl

/-- Instance of C9 for `posedCharacter` and the rational stand-ins `polyMath`. -/
theorem getCurrentCoordinateFrame_order_witness :
    Character.getCurrentCoordinateFrame polyMath posedCharacter
        = translateMatrix ⟨1, 2, 3⟩ * rotateZMatrix polyMath 30
          * rotateYMatrix polyMath 20 * rotateXMatrix polyMath 10 ∧
      Matrix.mulVec (Character.getCurrentCoordinateFrame polyMath posedCharacter)
        ![0, 0, 0, 1] = ![1, 2, 3, 1] := by
  have h := getCurrentCoordinateFrame_order polyMath (by norm_num [polyMath]) posedCharacter
  exact ⟨h.1, h.2.2⟩

end FrameClaims

end WalkTheSpline
